import Mathlib

/-!
# BeEngram front-end scripts: a shallow embedding

The three scripts under `main/static/main/js` (`like-post.js`, `action-menu.js`,
`form-image.js`) are embedded as pure functions over an explicit page state.

* JavaScript strings are sequences of UTF-16 code units (`JSString`).
* A handler that can throw returns the state it leaves behind together with the
  error it raised, if any (`Outcome`); a pure computation that can throw returns
  `Except JSError`.
* Browser built-ins used by the scripts (`String.prototype.split`, `trim`,
  `substring`, `decodeURIComponent`, `JSON.parse`, `DOMTokenList.toggle`,
  `XMLHttpRequest.open` with the URL parser, `XMLHttpRequest.setRequestHeader`,
  event dispatch) are modelled from their standards, each next to the place it
  is used. Documents are taken to be served over `http` or `https` in UTF-8.
-/

set_option autoImplicit false

namespace BeEngram

/-! ## Strings and errors -/

/-- A JavaScript string: the list of its UTF-16 code units. -/
abbrev JSString := List Nat

/-- The code units of a literal whose characters all lie in the Basic Multilingual Plane. -/
def str (s : String) : JSString := s.toList.map Char.toNat

/-- The exceptions the scripts can raise. -/
inductive JSError where
  /-- ECMAScript `TypeError` (property access on `null`, failed ByteString conversion). -/
  | TypeError
  /-- ECMAScript `SyntaxError`, raised by `JSON.parse`. -/
  | SyntaxError
  /-- ECMAScript `URIError`, raised by `decodeURIComponent`. -/
  | URIError
  /-- The DOMException named `SyntaxError`, raised by `setRequestHeader`. -/
  | DOMSyntaxError
  deriving DecidableEq, Repr

deriving instance DecidableEq for Except

/-- ECMAScript `WhiteSpace` and `LineTerminator` code units, the set `trim` strips. -/
def isJSWhiteSpace (c : Nat) : Bool :=
  c = 0x09 || c = 0x0A || c = 0x0B || c = 0x0C || c = 0x0D || c = 0x20 || c = 0xA0 ||
  c = 0x1680 || (0x2000 ≤ c && c ≤ 0x200A) || c = 0x2028 || c = 0x2029 || c = 0x202F ||
  c = 0x205F || c = 0x3000 || c = 0xFEFF

/-- The method `String.prototype.trim`. -/
def trim (s : JSString) : JSString :=
  ((s.dropWhile isJSWhiteSpace).reverse.dropWhile isJSWhiteSpace).reverse

/-- The method `String.prototype.split` with a one-code-unit separator: the empty string
splits into one empty piece. -/
def split (sep : Nat) : JSString → List JSString
  | [] => [[]]
  | c :: cs =>
    if c = sep then [] :: split sep cs
    else
      match split sep cs with
      | [] => [[c]]
      | piece :: pieces => (c :: piece) :: pieces

/-- The method `String.prototype.substring(start, end)`: both indices are clamped to the
length and swapped when out of order. -/
def substring (s : JSString) (start stop : Nat) : JSString :=
  (s.take (max start stop)).drop (min start stop)

/-- The method `String.prototype.substring(start)` with the end omitted. -/
def substringFrom (s : JSString) (start : Nat) : JSString :=
  s.drop start

/-! ## `decodeURIComponent` -/

/-- The value of a hexadecimal digit, `none` for any other code unit. -/
def hexVal (c : Nat) : Option Nat :=
  if 48 ≤ c ∧ c ≤ 57 then some (c - 48)
  else if 65 ≤ c ∧ c ≤ 70 then some (c - 55)
  else if 97 ≤ c ∧ c ≤ 102 then some (c - 87)
  else none

/-- One unit of a percent-encoded string: a code unit standing for itself, or the octet
written by an escape `%XY`. -/
inductive PctUnit where
  | lit (c : Nat)
  | octet (b : Nat)
  deriving DecidableEq, Repr

/-- First pass of ECMAScript `Decode`: every `%` must be followed by two hexadecimal
digits, otherwise a `URIError` is thrown. -/
def pctUnits : JSString → Except JSError (List PctUnit)
  | [] => .ok []
  | c :: rest =>
    if c = 37 then
      match rest with
      | a :: b :: rest2 =>
        match hexVal a, hexVal b with
        | some x, some y =>
          match pctUnits rest2 with
          | .ok us => .ok (PctUnit.octet (16 * x + y) :: us)
          | .error e => .error e
        | _, _ => .error JSError.URIError
      | _ => .error JSError.URIError
    else
      match pctUnits rest with
      | .ok us => .ok (PctUnit.lit c :: us)
      | .error e => .error e

/-- ECMAScript `UTF16EncodeCodePoint`. -/
def utf16Encode (cp : Nat) : JSString :=
  if cp < 0x10000 then [cp]
  else [0xD800 + (cp - 0x10000) / 0x400, 0xDC00 + (cp - 0x10000) % 0x400]

/-- A UTF-8 continuation octet `10xxxxxx`. -/
def isCont (b : Nat) : Bool := 0x80 ≤ b && b < 0xC0

/-- Second pass of ECMAScript `Decode` with an empty preserve set: an octet below `0x80` is
its own code unit; a lead octet announces one to three continuation octets, each of which
must itself be an escape, and the sequence must be well-formed UTF-8 (shortest form, no
surrogate, at most `U+10FFFF`), otherwise a `URIError` is thrown. -/
def utf8Units : List PctUnit → Except JSError JSString
  | [] => .ok []
  | PctUnit.lit c :: rest =>
    match utf8Units rest with
    | .ok s => .ok (c :: s)
    | .error e => .error e
  | PctUnit.octet b :: rest =>
    if b < 0x80 then
      match utf8Units rest with
      | .ok s => .ok (b :: s)
      | .error e => .error e
    else if b < 0xC0 then .error JSError.URIError
    else if b < 0xE0 then
      match rest with
      | PctUnit.octet b1 :: rest2 =>
        let cp := (b % 0x20) * 0x40 + b1 % 0x40
        if isCont b1 ∧ 0x80 ≤ cp then
          match utf8Units rest2 with
          | .ok s => .ok (utf16Encode cp ++ s)
          | .error e => .error e
        else .error JSError.URIError
      | _ => .error JSError.URIError
    else if b < 0xF0 then
      match rest with
      | PctUnit.octet b1 :: PctUnit.octet b2 :: rest2 =>
        let cp := (b % 0x10) * 0x1000 + (b1 % 0x40) * 0x40 + b2 % 0x40
        if isCont b1 ∧ isCont b2 ∧ 0x800 ≤ cp ∧ ¬ (0xD800 ≤ cp ∧ cp ≤ 0xDFFF) then
          match utf8Units rest2 with
          | .ok s => .ok (utf16Encode cp ++ s)
          | .error e => .error e
        else .error JSError.URIError
      | _ => .error JSError.URIError
    else if b < 0xF8 then
      match rest with
      | PctUnit.octet b1 :: PctUnit.octet b2 :: PctUnit.octet b3 :: rest2 =>
        let cp := (b % 0x08) * 0x40000 + (b1 % 0x40) * 0x1000 + (b2 % 0x40) * 0x40 + b3 % 0x40
        if isCont b1 ∧ isCont b2 ∧ isCont b3 ∧ 0x10000 ≤ cp ∧ cp ≤ 0x10FFFF then
          match utf8Units rest2 with
          | .ok s => .ok (utf16Encode cp ++ s)
          | .error e => .error e
        else .error JSError.URIError
      | _ => .error JSError.URIError
    else .error JSError.URIError

/-- The global function `decodeURIComponent`. -/
def decodeURIComponent (s : JSString) : Except JSError JSString :=
  match pctUnits s with
  | .ok us => utf8Units us
  | .error e => .error e

/-! ## `like-post.js`: `getCookie` -/

/-- The `for` loop of `getCookie` over the pieces `cookies[i], cookies[i+1], ...`: the
first trimmed piece whose first `name.length + 1` code units are `name + "="` is decoded and
returned (`break`); when the pieces run out, `cookieValue` is still `null`. -/
def getCookieLoop (name : JSString) : List JSString → Except JSError (Option JSString)
  | [] => .ok none
  | piece :: rest =>
    let cookie := trim piece
    if substring cookie 0 (name.length + 1) = name ++ str "=" then
      match decodeURIComponent (substringFrom cookie (name.length + 1)) with
      | .ok v => .ok (some v)
      | .error e => .error e
    else getCookieLoop name rest

/-- The function `getCookie(name)` of `like-post.js`, reading `document.cookie`. The result
`none` is JavaScript `null`. A string is truthy exactly when it is not empty. -/
def getCookie (documentCookie name : JSString) : Except JSError (Option JSString) :=
  if documentCookie ≠ [] ∧ documentCookie ≠ str "" then
    getCookieLoop name (split 59 documentCookie)
  else .ok none

/-- The reference definition of cookie retrieval, following the specification: split the
cookie string at `;`, trim every entry, take the first entry that begins with `name`
followed by `=`, and URL-decode everything after its first `name.length + 1` code units;
no such entry gives the absent value. -/
def getCookieRef (documentCookie name : JSString) : Except JSError (Option JSString) :=
  match ((split 59 documentCookie).map trim).find? (fun entry => (name ++ [61]).isPrefixOf entry) with
  | none => .ok none
  | some entry =>
    match decodeURIComponent (entry.drop (name.length + 1)) with
    | .ok v => .ok (some v)
    | .error e => .error e

/-! ## The page -/

/-- A computation that may throw: the state it leaves behind and the error raised, if any.
An uncaught error ends the running handler; the state reached so far stays. -/
structure Outcome (σ : Type) where
  state : σ
  error : Option JSError
  deriving DecidableEq, Repr

/-- An element of the document. Elements are numbered in tree order, so the number of a
parent is smaller than the numbers of its children. -/
structure Element where
  /-- Local name, lower case (`img`, `input`, ...). -/
  tag : JSString
  /-- Number of `parentElement`; `none` is `null`. -/
  parent : Option Nat
  /-- The token set behind `classList`. -/
  classList : List JSString
  /-- Content attributes, name and value. -/
  attrs : List (JSString × JSString)
  /-- The `files` of a file input: handles of the selected files. -/
  files : List Nat
  deriving DecidableEq, Repr

/-- The elements of the document in tree order. -/
abbrev Page := List Element

/-- The property `parentElement` of element `i`. -/
def parentElement (page : Page) (i : Nat) : Option Nat :=
  match page[i]? with
  | some e => e.parent
  | none => none

/-- The class tokens of element `i` (none for a number that is no element). -/
def classListOf (page : Page) (i : Nat) : List JSString :=
  match page[i]? with
  | some e => e.classList
  | none => []

/-- Tree order: every parent comes before its children. -/
def WellFormed (page : Page) : Prop :=
  ∀ i p, parentElement page i = some p → p < i

instance (page : Page) : Decidable (WellFormed page) :=
  decidable_of_iff (∀ i ∈ List.range page.length, ∀ p, parentElement page i = some p → p < i) (by
    constructor
    · intro h i p hp
      apply h i _ p hp
      rw [List.mem_range]
      by_contra hlt
      simp [parentElement, List.getElem?_eq_none (Nat.le_of_not_lt hlt)] at hp
    · intro h i _ p hp
      exact h i p hp)

/-- The method `DOMTokenList.toggle(token)` on the token set: a present token is removed, an
absent one is appended. -/
def toggle (token : JSString) (classes : List JSString) : List JSString :=
  if token ∈ classes then classes.filter (fun c => c ≠ token) else classes ++ [token]

/-- Run `element.classList.toggle(token)` on element `i` of the page. -/
def toggleClass (page : Page) (i : Nat) (token : JSString) : Page :=
  page.modify (fun e => { e with classList := toggle token e.classList }) i

/-- The call `document.getElementsByClassName(name)`: the elements carrying the class, in
tree order. -/
def getElementsByClassName (page : Page) (name : JSString) : List Nat :=
  (List.range page.length).filter (fun i => name ∈ classListOf page i)

/-- The target of an event followed by its ancestors, innermost first. The first argument
bounds the number of steps. -/
def ancestorsAux (page : Page) : Nat → Nat → List Nat
  | 0, _ => []
  | fuel + 1, i =>
    i :: (match parentElement page i with
          | some p => ancestorsAux page fuel p
          | none => [])

/-- The propagation path of a bubbling event dispatched at `target`: the target, its
parent, and so on up to the root. In tree order `target + 1` steps reach the root. -/
def eventPath (page : Page) (target : Nat) : List Nat :=
  ancestorsAux page (target + 1) target

/-! ## `action-menu.js` -/

/-- A click listener registered by `action-menu.js`: it sits on `button` and closes over
`menu`. -/
structure MenuListener where
  button : Nat
  menu : Nat
  deriving DecidableEq, Repr

/-- The `for` loop of `action-menu.js` over `menuList[i], menuList[i+1], ...`, given the
listeners registered so far. `button.addEventListener` on a `null` parent throws a
`TypeError`, which ends the script. -/
def bindMenusLoop (page : Page) : List Nat → List MenuListener → Outcome (List MenuListener)
  | [], registered => ⟨registered, none⟩
  | menu :: rest, registered =>
    match parentElement page menu with
    | none => ⟨registered, some JSError.TypeError⟩
    | some button => bindMenusLoop page rest (registered ++ [⟨button, menu⟩])

/-- The script `action-menu.js`, run at page load: the listeners it registers. -/
def actionMenuScript (page : Page) : Outcome (List MenuListener) :=
  bindMenusLoop page (getElementsByClassName page (str "action-menu")) []

/-- The body of the click listener: `menu.classList.toggle("action-menu--active")`. -/
def menuListenerRun (page : Page) (l : MenuListener) : Page :=
  toggleClass page l.menu (str "action-menu--active")

/-- The listeners a click at `target` invokes: for every element on the propagation path,
innermost first, the listeners registered on it, in registration order. -/
def invoked (listeners : List MenuListener) (page : Page) (target : Nat) : List MenuListener :=
  (eventPath page target).flatMap (fun node => listeners.filter (fun l => l.button = node))

/-- Dispatch one click at `target` with the given listeners registered. -/
def click (listeners : List MenuListener) (page : Page) (target : Nat) : Page :=
  (invoked listeners page target).foldl menuListenerRun page

/-! ## `JSON.parse` -/

/-- A value produced by `JSON.parse`. A number keeps its lexeme. -/
inductive JSONValue where
  | null
  | bool (b : Bool)
  | number (lexeme : JSString)
  | string (s : JSString)
  | array (items : List JSONValue)
  | object (members : List (JSString × JSONValue))

/-- JSON insignificant whitespace: space, tab, line feed, carriage return. -/
def isJSONWhiteSpace (c : Nat) : Bool :=
  c = 0x20 || c = 0x09 || c = 0x0A || c = 0x0D

/-- Drop leading JSON whitespace. -/
def skipWs (s : JSString) : JSString := s.dropWhile isJSONWhiteSpace

/-- A decimal digit. -/
def isDigit (c : Nat) : Bool := 48 ≤ c && c ≤ 57

/-- The code unit written by a simple escape `\"`, `\\`, `\/`, `\b`, `\f`, `\n`, `\r`,
`\t`, given the character after the backslash. -/
def escapeUnit (e : Nat) : Option Nat :=
  if e = 34 then some 34 else if e = 92 then some 92 else if e = 47 then some 47
  else if e = 98 then some 8 else if e = 102 then some 12 else if e = 110 then some 10
  else if e = 114 then some 13 else if e = 116 then some 9 else none

/-- The code unit written by the four hexadecimal digits of a `u` escape. -/
def hex4 (h1 h2 h3 h4 : Nat) : Option Nat :=
  match hexVal h1, hexVal h2, hexVal h3, hexVal h4 with
  | some a, some b, some c, some d => some (4096 * a + 256 * b + 16 * c + d)
  | _, _, _, _ => none

/-- The characters of a JSON string after its opening quote, up to the closing quote:
the decoded contents and the input that follows. Control characters must be escaped; the
escapes are the eight simple ones and four-digit `u` escapes. -/
def parseStringBody : JSString → Option (JSString × JSString)
  | [] => none
  | c :: rest =>
    if c = 34 then some ([], rest)
    else if c = 92 then
      match rest with
      | [] => none
      | e :: rest2 =>
        if e = 117 then
          match rest2 with
          | h1 :: h2 :: h3 :: h4 :: rest3 =>
            match hex4 h1 h2 h3 h4, parseStringBody rest3 with
            | some u, some (body, after) => some (u :: body, after)
            | _, _ => none
          | _ => none
        else
          match escapeUnit e, parseStringBody rest2 with
          | some u, some (body, after) => some (u :: body, after)
          | _, _ => none
    else if c < 0x20 then none
    else
      match parseStringBody rest with
      | some (body, after) => some (c :: body, after)
      | none => none

/-- A non-empty run of digits at the head of the input, and what follows it. -/
def parseDigits (s : JSString) : Option (JSString × JSString) :=
  if s.takeWhile isDigit = [] then none
  else some (s.takeWhile isDigit, s.dropWhile isDigit)

/-- An optional fraction `.digits`. -/
def parseFraction (s : JSString) : Option (JSString × JSString) :=
  match s with
  | c :: rest =>
    if c = 46 then
      match parseDigits rest with
      | some (ds, after) => some (c :: ds, after)
      | none => none
    else some ([], s)
  | [] => some ([], s)

/-- An optional exponent `e` or `E`, an optional sign, digits. -/
def parseExponent (s : JSString) : Option (JSString × JSString) :=
  match s with
  | c :: rest =>
    if c = 101 ∨ c = 69 then
      match rest with
      | sg :: rest2 =>
        if sg = 43 ∨ sg = 45 then
          match parseDigits rest2 with
          | some (ds, after) => some (c :: sg :: ds, after)
          | none => none
        else
          match parseDigits rest with
          | some (ds, after) => some (c :: ds, after)
          | none => none
      | [] => none
    else some ([], s)
  | [] => some ([], s)

/-- The integer part of a JSON number: a single `0`, or a digit `1`-`9` followed by
digits. -/
def parseInt (s : JSString) : Option (JSString × JSString) :=
  match s with
  | d :: rest =>
    if d = 48 then some ([d], rest)
    else if 49 ≤ d ∧ d ≤ 57 then some (d :: rest.takeWhile isDigit, rest.dropWhile isDigit)
    else none
  | [] => none

/-- A JSON number: optional minus, integer part, optional fraction, optional exponent. -/
def parseNumber (s : JSString) : Option (JSString × JSString) :=
  let signed : JSString × JSString :=
    match s with
    | c :: rest => if c = 45 then ([c], rest) else ([], s)
    | [] => ([], s)
  match parseInt signed.2 with
  | none => none
  | some (ip, s1) =>
    match parseFraction s1 with
    | none => none
    | some (fp, s2) =>
      match parseExponent s2 with
      | none => none
      | some (ep, s3) => some (signed.1 ++ ip ++ fp ++ ep, s3)

mutual
/-- One JSON value at the head of the input, after optional whitespace. The first argument
bounds the recursion depth. -/
def parseValue : Nat → JSString → Option (JSONValue × JSString)
  | 0, _ => none
  | fuel + 1, s =>
    match skipWs s with
    | [] => none
    | c :: rest =>
      if c = 123 then
        match skipWs rest with
        | [] => none
        | c2 :: rest2 =>
          if c2 = 125 then some (JSONValue.object [], rest2)
          else
            match parseMembers fuel rest with
            | some (ms, after) => some (JSONValue.object ms, after)
            | none => none
      else if c = 91 then
        match skipWs rest with
        | [] => none
        | c2 :: rest2 =>
          if c2 = 93 then some (JSONValue.array [], rest2)
          else
            match parseElements fuel rest with
            | some (vs, after) => some (JSONValue.array vs, after)
            | none => none
      else if c = 34 then
        match parseStringBody rest with
        | some (body, after) => some (JSONValue.string body, after)
        | none => none
      else if c = 45 ∨ isDigit c then
        match parseNumber (c :: rest) with
        | some (lexeme, after) => some (JSONValue.number lexeme, after)
        | none => none
      else if (c :: rest).take 4 = str "true" then some (JSONValue.bool true, (c :: rest).drop 4)
      else if (c :: rest).take 5 = str "false" then some (JSONValue.bool false, (c :: rest).drop 5)
      else if (c :: rest).take 4 = str "null" then some (JSONValue.null, (c :: rest).drop 4)
      else none
/-- The elements of a non-empty array up to and including the closing bracket. -/
def parseElements : Nat → JSString → Option (List JSONValue × JSString)
  | 0, _ => none
  | fuel + 1, s =>
    match parseValue fuel s with
    | none => none
    | some (v, after) =>
      match skipWs after with
      | [] => none
      | c :: rest =>
        if c = 44 then
          match parseElements fuel rest with
          | some (vs, after2) => some (v :: vs, after2)
          | none => none
        else if c = 93 then some ([v], rest)
        else none
/-- The members of a non-empty object up to and including the closing brace. -/
def parseMembers : Nat → JSString → Option (List (JSString × JSONValue) × JSString)
  | 0, _ => none
  | fuel + 1, s =>
    match skipWs s with
    | [] => none
    | q :: rest =>
      if q = 34 then
        match parseStringBody rest with
        | none => none
        | some (key, after) =>
          match skipWs after with
          | [] => none
          | colon :: rest2 =>
            if colon = 58 then
              match parseValue fuel rest2 with
              | none => none
              | some (v, after2) =>
                match skipWs after2 with
                | [] => none
                | c :: rest3 =>
                  if c = 44 then
                    match parseMembers fuel rest3 with
                    | some (ms, after3) => some ((key, v) :: ms, after3)
                    | none => none
                  else if c = 125 then some ([(key, v)], rest3)
                  else none
            else none
      else none
end

/-- The function `JSON.parse` on a string: one value surrounded by optional whitespace,
anything else throws a `SyntaxError`. Two nested calls consume at least one code unit, so
`2 * length + 2` levels are enough for every input. -/
def JSONparse (text : JSString) : Except JSError JSONValue :=
  match parseValue (2 * text.length + 2) text with
  | some (v, rest) => if skipWs rest = [] then .ok v else .error JSError.SyntaxError
  | none => .error JSError.SyntaxError

/-! ## URL parsing -/

/-- Conversion of a JavaScript string to code points, given the high surrogate that was
just read, if any: a high surrogate followed by a low one gives one code point, and a
surrogate without its partner gives U+FFFD. -/
def toCodePointsAux : Option Nat → JSString → List Nat
  | none, [] => []
  | some _, [] => [0xFFFD]
  | none, c :: rest =>
    if 0xD800 ≤ c ∧ c ≤ 0xDBFF then toCodePointsAux (some c) rest
    else if 0xDC00 ≤ c ∧ c ≤ 0xDFFF then 0xFFFD :: toCodePointsAux none rest
    else c :: toCodePointsAux none rest
  | some high, c :: rest =>
    if 0xDC00 ≤ c ∧ c ≤ 0xDFFF then
      (0x10000 + (high - 0xD800) * 0x400 + (c - 0xDC00)) :: toCodePointsAux none rest
    else if 0xD800 ≤ c ∧ c ≤ 0xDBFF then 0xFFFD :: toCodePointsAux (some c) rest
    else 0xFFFD :: c :: toCodePointsAux none rest

/-- Conversion of a JavaScript string to a `USVString`: the code points of the string. -/
def toCodePoints (s : JSString) : List Nat := toCodePointsAux none s

/-- The UTF-8 encoding of a code point. -/
def utf8Encode (cp : Nat) : List Nat :=
  if cp < 0x80 then [cp]
  else if cp < 0x800 then [0xC0 + cp / 0x40, 0x80 + cp % 0x40]
  else if cp < 0x10000 then [0xE0 + cp / 0x1000, 0x80 + cp / 0x40 % 0x40, 0x80 + cp % 0x40]
  else [0xF0 + cp / 0x40000, 0x80 + cp / 0x1000 % 0x40, 0x80 + cp / 0x40 % 0x40,
        0x80 + cp % 0x40]

/-- An upper-case hexadecimal digit. -/
def hexDigit (n : Nat) : Nat := if n < 10 then 48 + n else 55 + n

/-- The percent-encoding `%XY` of a byte. -/
def percentEncodeByte (b : Nat) : JSString := [37, hexDigit (b / 16), hexDigit (b % 16)]

/-- URL Standard, query percent-encode set: the C0 controls, every code point above `~`,
space, `"`, `#`, `<` and `>`. -/
def inQuerySet (cp : Nat) : Bool :=
  cp ≤ 0x1F || 0x7E < cp || cp = 0x20 || cp = 0x22 || cp = 0x23 || cp = 0x3C || cp = 0x3E

/-- URL Standard, special-query percent-encode set: the query set and `'`. -/
def inSpecialQuerySet (cp : Nat) : Bool := inQuerySet cp || cp = 0x27

/-- URL Standard, path percent-encode set: the query set and `?`, `^`, the backtick, `{`
and `}`. -/
def inPathSet (cp : Nat) : Bool :=
  inQuerySet cp || cp = 0x3F || cp = 0x5E || cp = 0x60 || cp = 0x7B || cp = 0x7D

/-- UTF-8 percent-encode a code point with respect to a percent-encode set. -/
def percentEncode (inSet : Nat → Bool) (cp : Nat) : JSString :=
  if inSet cp then (utf8Encode cp).flatMap percentEncodeByte else [cp]

/-- URL Standard, single-dot path segment: `.` or `%2e`, in either case of the `e`. -/
def isSingleDot (segment : JSString) : Bool :=
  segment ∈ [str ".", str "%2e", str "%2E"]

/-- URL Standard, double-dot path segment: two single-dot segments written one after the
other. -/
def isDoubleDot (segment : JSString) : Bool :=
  segment ∈ [str "..", str ".%2e", str ".%2E", str "%2e.", str "%2E.",
             str "%2e%2e", str "%2e%2E", str "%2E%2e", str "%2E%2E"]

/-- The path state of the URL parser at the end of a segment: a double-dot segment removes
the last segment of the path, a single-dot segment adds nothing, and either leaves an empty
last segment when it is not followed by a slash; any other segment is appended. -/
def endSegment (path : List JSString) (buffer : JSString) (slash : Bool) : List JSString :=
  if isDoubleDot buffer then
    (if slash then path.dropLast else path.dropLast ++ [[]])
  else if isSingleDot buffer then
    (if slash then path else path ++ [[]])
  else path ++ [buffer]

/-- The query state of the URL parser in a UTF-8 document: the code points up to a `#`,
percent-encoded with the special-query set. What follows the `#` is the fragment, which is
not sent. -/
def queryState (input : List Nat) : JSString :=
  (input.takeWhile (fun c => c ≠ 0x23)).flatMap (percentEncode inSpecialQuerySet)

/-- The path state of the URL parser for an `http` or `https` URL: `/` and `\` end a
segment, `?` and `#` end the path, every other code point joins the segment,
percent-encoded with the path set. The result is the path and the query. -/
def pathState : List Nat → List JSString → JSString → List JSString × Option JSString
  | [], path, buffer => (endSegment path buffer false, none)
  | c :: rest, path, buffer =>
    if c = 0x2F ∨ c = 0x5C then pathState rest (endSegment path buffer true) []
    else if c = 0x3F then (endSegment path buffer false, some (queryState rest))
    else if c = 0x23 then (endSegment path buffer false, none)
    else pathState rest path (buffer ++ percentEncode inPathSet c)

/-- The result of parsing the URL argument of `xhr.open` against the URL of the document. -/
inductive ParsedURL where
  /-- A URL on the scheme, host and port of the document, with the given path segments and
  query. -/
  | sameOrigin (path : List JSString) (query : Option JSString)
  /-- Any URL that does not begin with a single slash (one with a scheme or an authority, or
  a path relative to the path of the document); it is kept as written. -/
  | other (input : JSString)
  deriving DecidableEq, Repr

/-- The first steps of the URL parser: strip leading and trailing C0 controls and spaces,
then remove every tab, line feed and carriage return. -/
def cleanURL (input : List Nat) : List Nat :=
  (((input.dropWhile (fun c => c ≤ 0x20)).reverse.dropWhile (fun c => c ≤ 0x20)).reverse).filter
    (fun c => c ≠ 0x09 ∧ c ≠ 0x0A ∧ c ≠ 0x0D)

/-- The URL parser of the URL Standard on a string that begins with one slash (or
backslash) not followed by a second, relative to a document served over `http` or `https`:
the URL keeps the scheme, host and port of the document and its path is parsed by the path
state. -/
def parseURL (url : JSString) : ParsedURL :=
  match cleanURL (toCodePoints url) with
  | c0 :: rest =>
    if c0 = 0x2F ∨ c0 = 0x5C then
      match rest with
      | c1 :: _ =>
        if c1 = 0x2F ∨ c1 = 0x5C then ParsedURL.other url
        else ParsedURL.sameOrigin (pathState rest [] []).1 (pathState rest [] []).2
      | [] => ParsedURL.sameOrigin (pathState rest [] []).1 (pathState rest [] []).2
    else ParsedURL.other url
  | [] => ParsedURL.other url

/-- The URL path serializer: every segment preceded by a slash. -/
def serializePath (path : List JSString) : JSString :=
  path.flatMap (fun segment => 0x2F :: segment)

/-- A character that stands for itself in a path segment and takes no part in the syntax of
a URL: an ASCII letter or digit, `-` or `_`. -/
def isPlainChar (c : Nat) : Bool :=
  (48 ≤ c && c ≤ 57) || (65 ≤ c && c ≤ 90) || (97 ≤ c && c ≤ 122) || c = 45 || c = 95

/-! ## `XMLHttpRequest` -/

/-- A request handed to the network by `send`. -/
structure Request where
  method : JSString
  /-- The URL of the request, as parsed by `open`. -/
  url : ParsedURL
  async : Bool
  /-- The author request headers, name and value. -/
  headers : List (JSString × JSString)
  /-- The request body; `none` when `send` is called without an argument. -/
  body : Option JSString
  deriving DecidableEq, Repr

/-- ECMAScript `ToString` on a value that is `null` or a string, as applied by a template
literal and by the conversion of an argument to a string type. -/
def toStringValue : Option JSString → JSString
  | none => str "null"
  | some s => s

/-- Web IDL conversion of a JavaScript value to `ByteString`: `ToString`, then a
`TypeError` when a code unit exceeds 255. -/
def toByteString (v : Option JSString) : Except JSError JSString :=
  if (toStringValue v).all (fun c => c ≤ 255) then .ok (toStringValue v)
  else .error JSError.TypeError

/-- HTTP whitespace bytes: tab, line feed, carriage return, space. -/
def isHTTPWhiteSpace (c : Nat) : Bool :=
  c = 0x09 || c = 0x0A || c = 0x0D || c = 0x20

/-- Fetch "normalize" of a header value: strip leading and trailing HTTP whitespace. -/
def normalizeHeaderValue (v : JSString) : JSString :=
  ((v.dropWhile isHTTPWhiteSpace).reverse.dropWhile isHTTPWhiteSpace).reverse

/-- Fetch "header value", on a normalized value: no NUL, line feed or carriage return. -/
def isHeaderValue (v : JSString) : Bool :=
  v.all (fun c => c ≠ 0x00 && c ≠ 0x0A && c ≠ 0x0D)

/-- A character of an HTTP token: a letter, a digit, or one of the fifteen marks. -/
def isTokenChar (c : Nat) : Bool :=
  (48 ≤ c && c ≤ 57) || (65 ≤ c && c ≤ 90) || (97 ≤ c && c ≤ 122) ||
  c = 33 || c = 35 || c = 36 || c = 37 || c = 38 || c = 39 || c = 42 || c = 43 ||
  c = 45 || c = 46 || c = 94 || c = 95 || c = 96 || c = 124 || c = 126

/-- Fetch "header name": a non-empty token. -/
def isHeaderName (n : JSString) : Bool :=
  n ≠ [] && n.all isTokenChar

/-- The method `xhr.open(method, url, true)` on a fresh object: the request under
construction. The URL argument is parsed against the URL of the document. -/
def xhrOpen (method url : JSString) (async : Bool) : Request :=
  { method := method, url := parseURL url, async := async, headers := [], body := none }

/-- The method `xhr.setRequestHeader(name, value)` on an opened, unsent request: the value
is converted to a `ByteString` and normalized; an invalid name or value throws the
DOMException `SyntaxError`; otherwise the pair joins the author request headers. -/
def setRequestHeader (xhr : Request) (name : JSString) (value : Option JSString) :
    Except JSError Request :=
  match toByteString value with
  | .error e => .error e
  | .ok bytes =>
    if isHeaderName name ∧ isHeaderValue (normalizeHeaderValue bytes) then
      .ok { xhr with headers := xhr.headers ++ [(name, normalizeHeaderValue bytes)] }
    else .error JSError.DOMSyntaxError

/-- The value `setRequestHeader` stores for a JavaScript value, or the error it throws. -/
def headerValue (value : Option JSString) : Except JSError JSString :=
  match toByteString value with
  | .error e => .error e
  | .ok bytes =>
    if isHeaderValue (normalizeHeaderValue bytes) then .ok (normalizeHeaderValue bytes)
    else .error JSError.DOMSyntaxError

/-- A response as the `load` handler sees it on its `xhr`. -/
structure Response where
  readyState : Nat
  status : Nat
  responseText : JSString
  deriving DecidableEq, Repr

/-! ## `like-post.js`: the click and response handlers -/

/-- The state the like handlers act on: the page and the requests sent so far. -/
structure LikeWorld where
  page : Page
  sent : List Request
  deriving DecidableEq, Repr

/-- The method `element.getAttribute(name)`; `none` is `null`. -/
def getAttribute (page : Page) (i : Nat) (name : JSString) : Option JSString :=
  match page[i]? with
  | some e =>
    match e.attrs.find? (fun a => a.1 = name) with
    | some a => some a.2
    | none => none
  | none => none

/-- The property access `result["result"]` on a parsed JSON value; `none` is `undefined`.
On `null` it throws a `TypeError`; on an object the last member of that name counts;
numbers, booleans, strings and arrays have no property named `result`. -/
def getResult : JSONValue → Except JSError (Option JSONValue)
  | JSONValue.null => .error JSError.TypeError
  | JSONValue.object members =>
    match members.reverse.find? (fun m => m.1 = str "result") with
    | some m => .ok (some m.2)
    | none => .ok none
  | _ => .ok none

/-- The comparison `v === "success"`. -/
def isSuccess : Option JSONValue → Bool
  | some (JSONValue.string s) => s = str "success"
  | _ => false

/-- The `xhr.onload` handler of the request sent for `icon`. -/
def onload (icon : Nat) (xhr : Response) (page : Page) : Outcome Page :=
  if xhr.readyState = 4 then
    match JSONparse xhr.responseText with
    | .error e => ⟨page, some e⟩
    | .ok result =>
      if xhr.status = 200 then
        match getResult result with
        | .error e => ⟨page, some e⟩
        | .ok field =>
          if isSuccess field then ⟨toggleClass page icon (str "like--active"), none⟩
          else ⟨page, none⟩
      else ⟨page, none⟩
  else ⟨page, none⟩

/-- The click listener of `icon`, closing over the `csrftoken` read at page load. -/
def likeClick (csrftoken : Option JSString) (icon : Nat) (w : LikeWorld) : Outcome LikeWorld :=
  let postPk := getAttribute w.page icon (str "data-pk")
  let url := str "/like/" ++ toStringValue postPk
  let xhr := xhrOpen (str "POST") url true
  match setRequestHeader xhr (str "X-CSRFToken") csrftoken with
  | .error e => ⟨w, some e⟩
  | .ok xhr2 => ⟨{ w with sent := w.sent ++ [xhr2] }, none⟩

/-- A click listener registered by `like-post.js`. -/
structure LikeListener where
  icon : Nat
  csrftoken : Option JSString
  deriving DecidableEq, Repr

/-- The script `like-post.js`, run at page load: it collects the icons, reads the token
once with `getCookie('csrftoken')`, and registers one click listener per icon. An error
thrown by `getCookie` ends the script before any listener is registered. -/
def likePostScript (documentCookie : JSString) (page : Page) : Outcome (List LikeListener) :=
  let likeIcons := getElementsByClassName page (str "like")
  match getCookie documentCookie (str "csrftoken") with
  | .error e => ⟨[], some e⟩
  | .ok csrftoken => ⟨likeIcons.map (fun icon => ⟨icon, csrftoken⟩), none⟩

/-- Some entry of the cookie string, once trimmed, begins with `name=`. -/
def hasCookie (documentCookie name : JSString) : Bool :=
  ((split 59 documentCookie).map trim).any (fun entry => (name ++ [61]).isPrefixOf entry)

/-! ## `form-image.js` -/

/-- The state the preview handler acts on: the page and the blob URL store, which lists
the files an object URL was created for. -/
structure FormWorld where
  page : Page
  blobs : List Nat
  deriving DecidableEq, Repr

/-- The object URL of the entry of the blob URL store with number `n`. -/
def blobURL (n : Nat) : JSString :=
  str "blob:" ++ (Nat.toDigits 10 n).map Char.toNat

/-- The property `nextElementSibling`: the next element with the same parent. -/
def nextElementSibling (page : Page) (i : Nat) : Option Nat :=
  match parentElement page i with
  | none => none
  | some p => (List.range page.length).find? (fun j => i < j ∧ parentElement page j = some p)

/-- The call `root.querySelector("img")`: the first descendant of `root` in tree order
whose tag is `img`. -/
def querySelectorImg (page : Page) (root : Nat) : Option Nat :=
  (List.range page.length).find? (fun j =>
    (match page[j]? with
     | some e => decide (e.tag = str "img")
     | none => false) && decide (root ∈ (eventPath page j).tail))

/-- The assignment `img.src = value`: set the content attribute `src`. -/
def setSrc (page : Page) (img : Nat) (value : JSString) : Page :=
  page.modify (fun e =>
    { e with attrs := e.attrs.filter (fun a => a.1 ≠ str "src") ++ [(str "src", value)] }) img

/-- The `change` listener of the file input `input`. -/
def formImageChange (input : Nat) (w : FormWorld) : Outcome FormWorld :=
  let file : Option Nat :=
    match w.page[input]? with
    | some e => e.files[0]?
    | none => none
  match nextElementSibling w.page input with
  | none => ⟨w, some JSError.TypeError⟩
  | some label =>
    match file, querySelectorImg w.page label with
    | some f, some img =>
      ⟨{ page := setSrc w.page img (blobURL w.blobs.length), blobs := w.blobs ++ [f] }, none⟩
    | _, _ => ⟨w, none⟩

/-! ## Sample documents -/

/-- An element with a tag, a parent and classes, and nothing else. -/
def plain (tag : String) (parent : Option Nat) (classes : List String) : Element :=
  { tag := str tag, parent := parent, classList := classes.map str, attrs := [], files := [] }

/-- The document `html > body > i.like[data-pk=42]`; the icon is element 2. -/
def likePage : Page :=
  [plain "html" none [], plain "body" (some 0) [],
   { plain "i" (some 1) ["like"] with attrs := [(str "data-pk", str "42")] }]

/-- A completed response with the given status and body. -/
def completed (status : Nat) (body : String) : Response :=
  { readyState := 4, status := status, responseText := str body }

/-- The document `html > body > (div > ul.action-menu) (div > ul.action-menu.action-menu--active)`:
the menus are elements 3 and 5, their triggers elements 2 and 4. -/
def menuPage : Page :=
  [plain "html" none [], plain "body" (some 0) [],
   plain "div" (some 1) [], plain "ul" (some 2) ["action-menu"],
   plain "div" (some 1) [], plain "ul" (some 4) ["action-menu--active", "action-menu"]]

/-- The document `html > body > (ul.action-menu) (ul.action-menu)`: the menus, elements 2
and 3, have the same parent, element 1. -/
def sharedPage : Page :=
  [plain "html" none [], plain "body" (some 0) [],
   plain "ul" (some 1) ["action-menu"], plain "ul" (some 1) ["action-menu"]]

/-- A file input marked `data-form-image` with the given parent and selected files. -/
def fileInput (parent : Option Nat) (files : List Nat) : Element :=
  { tag := str "input", parent := parent, classList := [],
    attrs := [(str "type", str "file"), (str "data-form-image", str "")], files := files }

/-- The document `html > body > form > (input) (label > img)`: the input, element 3, is
followed by the label, element 4, which holds the image, element 5. File 7 is selected. -/
def previewPage : Page :=
  [plain "html" none [], plain "body" (some 0) [], plain "form" (some 1) [],
   fileInput (some 2) [7], plain "label" (some 2) [], plain "img" (some 4) []]

/-- The document `html > body > form > (label > img) (input)`: the input, element 5, is the
last child of the form and has no next sibling element. File 7 is selected. -/
def lastChildPage : Page :=
  [plain "html" none [], plain "body" (some 0) [], plain "form" (some 1) [],
   plain "label" (some 2) [], plain "img" (some 3) [], fileInput (some 2) [7]]

/-- The document `html > body > i.like[data-pk="../7"]`; the icon is element 2. -/
def dotsPage : Page :=
  [plain "html" none [], plain "body" (some 0) [],
   { plain "i" (some 1) ["like"] with attrs := [(str "data-pk", str "../7")] }]

/-- The document `html.action-menu > body > div > ul.action-menu`: the root element carries
the class, and the menu, element 3, has the parent 2. -/
def rootMenuPage : Page :=
  [plain "html" none ["action-menu"], plain "body" (some 0) [],
   plain "div" (some 1) [], plain "ul" (some 2) ["action-menu"]]

/-! ## Facts about the built-ins -/

theorem substring_zero (s : JSString) (k : Nat) : substring s 0 k = s.take k := by
  simp [substring]

theorem str_eq : str "=" = [61] := by decide

theorem begins_iff (name cookie : JSString) :
    substring cookie 0 (name.length + 1) = name ++ str "=" ↔
      (name ++ [61]).isPrefixOf cookie = true := by
  rw [substring_zero, str_eq, List.isPrefixOf_iff_prefix, List.prefix_iff_eq_take]
  simp only [List.length_append, List.length_singleton]
  exact eq_comm

theorem getCookieLoop_eq_find (name : JSString) (pieces : List JSString) :
    getCookieLoop name pieces =
      match (pieces.map trim).find? (fun entry => (name ++ [61]).isPrefixOf entry) with
      | none => .ok none
      | some entry =>
        match decodeURIComponent (entry.drop (name.length + 1)) with
        | .ok v => .ok (some v)
        | .error e => .error e := by
  induction pieces with
  | nil => rfl
  | cons piece rest ih =>
    by_cases h : (name ++ [61]).isPrefixOf (trim piece) = true
    · have h2 := (begins_iff name (trim piece)).mpr h
      simp only [getCookieLoop, h2, if_true, List.map_cons, List.find?_cons, h, substringFrom]
    · have h2 : ¬ substring (trim piece) 0 (name.length + 1) = name ++ str "=" :=
        fun hc => h ((begins_iff name (trim piece)).mp hc)
      have h3 : (name ++ [61]).isPrefixOf (trim piece) = false := Bool.eq_false_iff.mpr h
      simp only [getCookieLoop, h2, if_false, List.map_cons, List.find?_cons, h3]
      exact ih

theorem JSONparse_error (text : JSString) (e : JSError) (h : JSONparse text = .error e) :
    e = JSError.SyntaxError := by
  unfold JSONparse at h
  split at h
  · split at h
    · cases h
    · cases h; rfl
  · cases h; rfl

theorem isSuccess_iff (f : Option JSONValue) :
    isSuccess f = true ↔ f = some (JSONValue.string (str "success")) := by
  cases f with
  | none => simp [isSuccess]
  | some v => cases v <;> simp [isSuccess]

/-! ## The recursion bound of `JSON.parse` -/

theorem skipWs_length (s : JSString) : (skipWs s).length ≤ s.length :=
  (List.dropWhile_sublist _).length_le

theorem skipWs_cons_length (s rest : JSString) (c : Nat) (h : skipWs s = c :: rest) :
    rest.length < s.length := by
  have h2 := skipWs_length s
  rw [h, List.length_cons] at h2
  omega

theorem parseStringBody_length (n : Nat) :
    ∀ (s body after : JSString), s.length ≤ n →
      parseStringBody s = some (body, after) → after.length ≤ s.length := by
  induction n with
  | zero =>
    intro s body after hn h
    cases s with
    | nil => rw [parseStringBody] at h; cases h
    | cons c rest => rw [List.length_cons] at hn; omega
  | succ n ih =>
    intro s body after hn h
    cases s with
    | nil => rw [parseStringBody] at h; cases h
    | cons c rest =>
      rw [List.length_cons] at hn ⊢
      unfold parseStringBody at h
      by_cases h34 : c = 34
      · rw [if_pos h34] at h
        cases h
        omega
      · rw [if_neg h34] at h
        by_cases h92 : c = 92
        · rw [if_pos h92] at h
          cases rest with
          | nil => cases h
          | cons e rest2 =>
            rw [List.length_cons] at hn ⊢
            dsimp only at h
            by_cases hu : e = 117
            · rw [if_pos hu] at h
              match rest2, h, hn with
              | [], h, _ => cases h
              | [_], h, _ => cases h
              | [_, _], h, _ => cases h
              | [_, _, _], h, _ => cases h
              | h1 :: h2 :: h3 :: h4 :: rest3, h, hn =>
                simp only [List.length_cons] at hn ⊢
                dsimp only at h
                cases hx : hex4 h1 h2 h3 h4 with
                | none => rw [hx] at h; cases h
                | some u =>
                  cases hrec : parseStringBody rest3 with
                  | none => rw [hx, hrec] at h; cases h
                  | some r =>
                    obtain ⟨b2, a2⟩ := r
                    rw [hx, hrec] at h
                    cases h
                    have := ih rest3 _ _ (by omega) hrec
                    omega
            · rw [if_neg hu] at h
              cases hx : escapeUnit e with
              | none => rw [hx] at h; cases h
              | some u =>
                cases hrec : parseStringBody rest2 with
                | none => rw [hx, hrec] at h; cases h
                | some r =>
                  obtain ⟨b2, a2⟩ := r
                  rw [hx, hrec] at h
                  cases h
                  have := ih rest2 _ _ (by omega) hrec
                  omega
        · rw [if_neg h92] at h
          by_cases hlt : c < 0x20
          · rw [if_pos hlt] at h; cases h
          · rw [if_neg hlt] at h
            cases hrec : parseStringBody rest with
            | none => rw [hrec] at h; cases h
            | some r =>
              obtain ⟨b2, a2⟩ := r
              rw [hrec] at h
              cases h
              have := ih rest _ _ (by omega) hrec
              omega

theorem parseDigits_length (s ds after : JSString) (h : parseDigits s = some (ds, after)) :
    after.length ≤ s.length := by
  unfold parseDigits at h
  by_cases he : s.takeWhile isDigit = []
  · rw [if_pos he] at h; cases h
  · rw [if_neg he] at h
    cases h
    exact (List.dropWhile_sublist _).length_le

theorem parseFraction_length (s ds after : JSString) (h : parseFraction s = some (ds, after)) :
    after.length ≤ s.length := by
  unfold parseFraction at h
  cases s with
  | nil => cases h; exact le_refl _
  | cons c rest =>
    dsimp only at h
    by_cases hc : c = 46
    · rw [if_pos hc] at h
      cases hd : parseDigits rest with
      | none => rw [hd] at h; cases h
      | some r =>
        obtain ⟨d2, a2⟩ := r
        rw [hd] at h
        cases h
        have := parseDigits_length rest _ _ hd
        rw [List.length_cons]
        omega
    · rw [if_neg hc] at h
      cases h
      exact le_refl _

theorem parseExponent_length (s ds after : JSString) (h : parseExponent s = some (ds, after)) :
    after.length ≤ s.length := by
  unfold parseExponent at h
  cases s with
  | nil => cases h; exact le_refl _
  | cons c rest =>
    dsimp only at h
    by_cases hc : c = 101 ∨ c = 69
    · rw [if_pos hc] at h
      cases rest with
      | nil => cases h
      | cons sg rest2 =>
        dsimp only at h
        by_cases hsg : sg = 43 ∨ sg = 45
        · rw [if_pos hsg] at h
          cases hd : parseDigits rest2 with
          | none => rw [hd] at h; cases h
          | some r =>
            obtain ⟨d2, a2⟩ := r
            rw [hd] at h
            cases h
            have := parseDigits_length rest2 _ _ hd
            simp only [List.length_cons]
            omega
        · rw [if_neg hsg] at h
          cases hd : parseDigits (sg :: rest2) with
          | none => rw [hd] at h; cases h
          | some r =>
            obtain ⟨d2, a2⟩ := r
            rw [hd] at h
            cases h
            have := parseDigits_length (sg :: rest2) _ _ hd
            simp only [List.length_cons] at this ⊢
            omega
    · rw [if_neg hc] at h
      cases h
      exact le_refl _

theorem parseInt_length (s ds after : JSString) (h : parseInt s = some (ds, after)) :
    after.length ≤ s.length := by
  unfold parseInt at h
  cases s with
  | nil => cases h
  | cons d rest =>
    dsimp only at h
    rw [List.length_cons]
    by_cases h0 : d = 48
    · rw [if_pos h0] at h
      cases h
      omega
    · rw [if_neg h0] at h
      by_cases h19 : 49 ≤ d ∧ d ≤ 57
      · rw [if_pos h19] at h
        cases h
        have : (List.dropWhile isDigit rest).length ≤ rest.length :=
          (List.dropWhile_sublist _).length_le
        omega
      · rw [if_neg h19] at h
        cases h

theorem parseNumber_length (s lexeme after : JSString)
    (h : parseNumber s = some (lexeme, after)) : after.length ≤ s.length := by
  unfold parseNumber at h
  dsimp only at h
  have hsigned : (match s with
      | c :: rest => if c = 45 then ([c], rest) else (([] : JSString), s)
      | [] => ([], s)).2.length ≤ s.length := by
    cases s with
    | nil => exact le_refl _
    | cons c rest =>
      dsimp only
      by_cases hc : c = 45
      · rw [if_pos hc]; simp
      · rw [if_neg hc]
  generalize (match s with
      | c :: rest => if c = 45 then ([c], rest) else (([] : JSString), s)
      | [] => ([], s)) = signed at h hsigned
  cases hi : parseInt signed.2 with
  | none => rw [hi] at h; cases h
  | some r1 =>
    obtain ⟨ip, s1⟩ := r1
    rw [hi] at h
    dsimp only at h
    cases hf : parseFraction s1 with
    | none => rw [hf] at h; cases h
    | some r2 =>
      obtain ⟨fp, s2⟩ := r2
      rw [hf] at h
      dsimp only at h
      cases he : parseExponent s2 with
      | none => rw [he] at h; cases h
      | some r3 =>
        obtain ⟨ep, s3⟩ := r3
        rw [he] at h
        cases h
        have := parseInt_length _ _ _ hi
        have := parseFraction_length _ _ _ hf
        have := parseExponent_length _ _ _ he
        omega

theorem parseValue_length_step (f : Nat)
    (ihE : ∀ s vs after, parseElements f s = some (vs, after) → after.length ≤ s.length)
    (ihM : ∀ s ms after, parseMembers f s = some (ms, after) → after.length ≤ s.length)
    (s : JSString) (v : JSONValue) (after : JSString)
    (h : parseValue (f + 1) s = some (v, after)) : after.length ≤ s.length := by
  unfold parseValue at h
  cases hs : skipWs s with
  | nil => rw [hs] at h; cases h
  | cons c rest =>
    rw [hs] at h
    dsimp only at h
    have hrest := skipWs_cons_length s rest c hs
    have hskip : (c :: rest).length ≤ s.length := by rw [← hs]; exact skipWs_length s
    by_cases h123 : c = 123
    · rw [if_pos h123] at h
      cases hs2 : skipWs rest with
      | nil => rw [hs2] at h; cases h
      | cons c2 rest2 =>
        rw [hs2] at h
        dsimp only at h
        have hrest2 := skipWs_cons_length rest rest2 c2 hs2
        by_cases h125 : c2 = 125
        · rw [if_pos h125] at h
          cases h
          omega
        · rw [if_neg h125] at h
          cases hm : parseMembers f rest with
          | none => rw [hm] at h; cases h
          | some r =>
            obtain ⟨ms, a2⟩ := r
            rw [hm] at h
            cases h
            have := ihM rest _ _ hm
            omega
    · rw [if_neg h123] at h
      by_cases h91 : c = 91
      · rw [if_pos h91] at h
        cases hs2 : skipWs rest with
        | nil => rw [hs2] at h; cases h
        | cons c2 rest2 =>
          rw [hs2] at h
          dsimp only at h
          have hrest2 := skipWs_cons_length rest rest2 c2 hs2
          by_cases h93 : c2 = 93
          · rw [if_pos h93] at h
            cases h
            omega
          · rw [if_neg h93] at h
            cases hm : parseElements f rest with
            | none => rw [hm] at h; cases h
            | some r =>
              obtain ⟨vs, a2⟩ := r
              rw [hm] at h
              cases h
              have := ihE rest _ _ hm
              omega
      · rw [if_neg h91] at h
        by_cases h34 : c = 34
        · rw [if_pos h34] at h
          cases hb : parseStringBody rest with
          | none => rw [hb] at h; cases h
          | some r =>
            obtain ⟨body, a2⟩ := r
            rw [hb] at h
            cases h
            have := parseStringBody_length _ rest _ _ (le_refl _) hb
            omega
        · rw [if_neg h34] at h
          by_cases hnum : c = 45 ∨ isDigit c = true
          · rw [if_pos hnum] at h
            cases hb : parseNumber (c :: rest) with
            | none => rw [hb] at h; cases h
            | some r =>
              obtain ⟨lexeme, a2⟩ := r
              rw [hb] at h
              cases h
              have := parseNumber_length _ _ _ hb
              omega
          · rw [if_neg hnum] at h
            by_cases ht : (c :: rest).take 4 = str "true"
            · rw [if_pos ht] at h
              cases h
              have : ((c :: rest).drop 4).length ≤ (c :: rest).length := by
                rw [List.length_drop]; omega
              omega
            · rw [if_neg ht] at h
              by_cases hf : (c :: rest).take 5 = str "false"
              · rw [if_pos hf] at h
                cases h
                have : ((c :: rest).drop 5).length ≤ (c :: rest).length := by
                  rw [List.length_drop]; omega
                omega
              · rw [if_neg hf] at h
                by_cases hn : (c :: rest).take 4 = str "null"
                · rw [if_pos hn] at h
                  cases h
                  have : ((c :: rest).drop 4).length ≤ (c :: rest).length := by
                    rw [List.length_drop]; omega
                  omega
                · rw [if_neg hn] at h
                  cases h

theorem parseElements_length_step (f : Nat)
    (ihV : ∀ s v after, parseValue f s = some (v, after) → after.length ≤ s.length)
    (ihE : ∀ s vs after, parseElements f s = some (vs, after) → after.length ≤ s.length)
    (s : JSString) (vs : List JSONValue) (after : JSString)
    (h : parseElements (f + 1) s = some (vs, after)) : after.length ≤ s.length := by
  unfold parseElements at h
  cases hv : parseValue f s with
  | none => rw [hv] at h; cases h
  | some r =>
    obtain ⟨v, a1⟩ := r
    rw [hv] at h
    dsimp only at h
    have h1 := ihV s _ _ hv
    cases hs : skipWs a1 with
    | nil => rw [hs] at h; cases h
    | cons c rest =>
      rw [hs] at h
      dsimp only at h
      have hrest := skipWs_cons_length a1 rest c hs
      by_cases h44 : c = 44
      · rw [if_pos h44] at h
        cases he : parseElements f rest with
        | none => rw [he] at h; cases h
        | some r2 =>
          obtain ⟨vs2, a2⟩ := r2
          rw [he] at h
          cases h
          have := ihE rest _ _ he
          omega
      · rw [if_neg h44] at h
        by_cases h93 : c = 93
        · rw [if_pos h93] at h
          cases h
          omega
        · rw [if_neg h93] at h
          cases h

theorem parseMembers_length_step (f : Nat)
    (ihV : ∀ s v after, parseValue f s = some (v, after) → after.length ≤ s.length)
    (ihM : ∀ s ms after, parseMembers f s = some (ms, after) → after.length ≤ s.length)
    (s : JSString) (ms : List (JSString × JSONValue)) (after : JSString)
    (h : parseMembers (f + 1) s = some (ms, after)) : after.length ≤ s.length := by
  unfold parseMembers at h
  cases hs : skipWs s with
  | nil => rw [hs] at h; cases h
  | cons q rest =>
    rw [hs] at h
    dsimp only at h
    have hrest := skipWs_cons_length s rest q hs
    by_cases h34 : q = 34
    · rw [if_pos h34] at h
      cases hb : parseStringBody rest with
      | none => rw [hb] at h; cases h
      | some r =>
        obtain ⟨key, a1⟩ := r
        rw [hb] at h
        dsimp only at h
        have h1 := parseStringBody_length _ rest _ _ (le_refl _) hb
        cases hs2 : skipWs a1 with
        | nil => rw [hs2] at h; cases h
        | cons colon rest2 =>
          rw [hs2] at h
          dsimp only at h
          have hrest2 := skipWs_cons_length a1 rest2 colon hs2
          by_cases h58 : colon = 58
          · rw [if_pos h58] at h
            cases hv : parseValue f rest2 with
            | none => rw [hv] at h; cases h
            | some r2 =>
              obtain ⟨v, a2⟩ := r2
              rw [hv] at h
              dsimp only at h
              have h2 := ihV rest2 _ _ hv
              cases hs3 : skipWs a2 with
              | nil => rw [hs3] at h; cases h
              | cons c rest3 =>
                rw [hs3] at h
                dsimp only at h
                have hrest3 := skipWs_cons_length a2 rest3 c hs3
                by_cases h44 : c = 44
                · rw [if_pos h44] at h
                  cases hm : parseMembers f rest3 with
                  | none => rw [hm] at h; cases h
                  | some r3 =>
                    obtain ⟨ms2, a3⟩ := r3
                    rw [hm] at h
                    cases h
                    have := ihM rest3 _ _ hm
                    omega
                · rw [if_neg h44] at h
                  by_cases h125 : c = 125
                  · rw [if_pos h125] at h
                    cases h
                    omega
                  · rw [if_neg h125] at h
                    cases h
          · rw [if_neg h58] at h
            cases h
    · rw [if_neg h34] at h
      cases h

theorem parse_length (f : Nat) :
    (∀ s v after, parseValue f s = some (v, after) → after.length ≤ s.length) ∧
    (∀ s vs after, parseElements f s = some (vs, after) → after.length ≤ s.length) ∧
    (∀ s ms after, parseMembers f s = some (ms, after) → after.length ≤ s.length) := by
  induction f with
  | zero =>
    refine ⟨?_, ?_, ?_⟩
    · intro s v after h; unfold parseValue at h; cases h
    · intro s v after h; unfold parseElements at h; cases h
    · intro s v after h; unfold parseMembers at h; cases h
  | succ f ih =>
    exact ⟨parseValue_length_step f ih.2.1 ih.2.2,
      parseElements_length_step f ih.1 ih.2.1,
      parseMembers_length_step f ih.1 ih.2.2⟩

theorem parseValue_stable_step (f : Nat)
    (ihE : ∀ s : JSString, 2 * s.length + 2 ≤ f → parseElements (f + 1) s = parseElements f s)
    (ihM : ∀ s : JSString, 2 * s.length + 2 ≤ f → parseMembers (f + 1) s = parseMembers f s)
    (s : JSString) (hs : 2 * s.length + 1 ≤ f + 1) :
    parseValue (f + 1 + 1) s = parseValue (f + 1) s := by
  unfold parseValue
  cases hsk : skipWs s with
  | nil => rfl
  | cons c rest =>
    dsimp only
    have hrest := skipWs_cons_length s rest c hsk
    rw [ihE rest (by omega), ihM rest (by omega)]

theorem parseElements_stable_step (f : Nat)
    (ihV : ∀ s : JSString, 2 * s.length + 1 ≤ f → parseValue (f + 1) s = parseValue f s)
    (ihE : ∀ s : JSString, 2 * s.length + 2 ≤ f → parseElements (f + 1) s = parseElements f s)
    (s : JSString) (hs : 2 * s.length + 2 ≤ f + 1) :
    parseElements (f + 1 + 1) s = parseElements (f + 1) s := by
  unfold parseElements
  rw [ihV s (by omega)]
  cases hv : parseValue f s with
  | none => rfl
  | some r =>
    obtain ⟨v, a1⟩ := r
    dsimp only
    have h1 := (parse_length f).1 s _ _ hv
    cases hsk : skipWs a1 with
    | nil => rfl
    | cons c rest =>
      dsimp only
      have hrest := skipWs_cons_length a1 rest c hsk
      rw [ihE rest (by omega)]

theorem parseMembers_stable_step (f : Nat)
    (ihV : ∀ s : JSString, 2 * s.length + 1 ≤ f → parseValue (f + 1) s = parseValue f s)
    (ihM : ∀ s : JSString, 2 * s.length + 2 ≤ f → parseMembers (f + 1) s = parseMembers f s)
    (s : JSString) (hs : 2 * s.length + 2 ≤ f + 1) :
    parseMembers (f + 1 + 1) s = parseMembers (f + 1) s := by
  unfold parseMembers
  cases hsk : skipWs s with
  | nil => rfl
  | cons q rest =>
    dsimp only
    have hrest := skipWs_cons_length s rest q hsk
    by_cases h34 : q = 34
    · rw [if_pos h34, if_pos h34]
      cases hb : parseStringBody rest with
      | none => rfl
      | some r =>
        obtain ⟨key, a1⟩ := r
        dsimp only
        have h1 := parseStringBody_length _ rest _ _ (le_refl _) hb
        cases hs2 : skipWs a1 with
        | nil => rfl
        | cons colon rest2 =>
          dsimp only
          have hrest2 := skipWs_cons_length a1 rest2 colon hs2
          rw [ihV rest2 (by omega)]
          cases hv : parseValue f rest2 with
          | none => rfl
          | some r2 =>
            obtain ⟨v, a2⟩ := r2
            dsimp only
            have h2 := (parse_length f).1 rest2 _ _ hv
            cases hs3 : skipWs a2 with
            | nil => rfl
            | cons c rest3 =>
              dsimp only
              have hrest3 := skipWs_cons_length a2 rest3 c hs3
              rw [ihM rest3 (by omega)]
    · rw [if_neg h34, if_neg h34]

theorem parse_stable (f : Nat) :
    (∀ s : JSString, 2 * s.length + 1 ≤ f → parseValue (f + 1) s = parseValue f s) ∧
    (∀ s : JSString, 2 * s.length + 2 ≤ f → parseElements (f + 1) s = parseElements f s) ∧
    (∀ s : JSString, 2 * s.length + 2 ≤ f → parseMembers (f + 1) s = parseMembers f s) := by
  induction f with
  | zero =>
    refine ⟨?_, ?_, ?_⟩ <;> intro s hs <;> omega
  | succ f ih =>
    exact ⟨parseValue_stable_step f ih.2.1 ih.2.2,
      parseElements_stable_step f ih.1 ih.2.1,
      parseMembers_stable_step f ih.1 ih.2.2⟩

/-- The recursion bound of `JSONparse` is never the reason for a rejection: any larger
bound gives the same result. -/
theorem parseValue_fuel (text : JSString) (k : Nat) :
    parseValue (2 * text.length + 2 + k) text = parseValue (2 * text.length + 2) text := by
  induction k with
  | zero => rfl
  | succ k ih =>
    rw [← ih]
    exact (parse_stable (2 * text.length + 2 + k)).1 text (by omega)

/-! ## Cookie retrieval -/

theorem getCookie_refines (s n : JSString) : getCookie s n = getCookieRef s n := by
  unfold getCookie getCookieRef
  by_cases hs : s = []
  · subst hs
    have : (n ++ [61]).isPrefixOf (trim []) = false := by
      cases n <;> simp [trim, List.isPrefixOf]
    simp [split, this]
  · have hs2 : s ≠ [] ∧ s ≠ str "" := ⟨hs, hs⟩
    rw [if_pos hs2, getCookieLoop_eq_find]

theorem getCookie_of_not_hasCookie (s n : JSString) (h : hasCookie s n = false) :
    getCookie s n = .ok none := by
  rw [getCookie_refines]
  unfold getCookieRef
  unfold hasCookie at h
  have hfind : ((split 59 s).map trim).find? (fun entry => (n ++ [61]).isPrefixOf entry) = none := by
    rw [List.find?_eq_none]
    intro x hx hp
    rw [List.any_eq_false] at h
    exact h x hx hp
  rw [hfind]

/-- C1. `getCookie` equals its reference definition on every cookie string and every name
(a decoding error of the matched value is raised by both), it extracts `XYZ` from
`a=1; csrftoken=XYZ; b=2`, and it returns the absent value on the empty cookie string. -/
theorem getCookie_eq_getCookieRef :
    (∀ s n : JSString, getCookie s n = getCookieRef s n) ∧
    getCookie (str "a=1; csrftoken=XYZ; b=2") (str "csrftoken") = .ok (some (str "XYZ")) ∧
    getCookie (str "") (str "csrftoken") = .ok none :=
  ⟨getCookie_refines, by decide, by decide⟩

/-! ## Class toggling -/

theorem mem_toggle_self (t : JSString) (l : List JSString) : t ∈ toggle t l ↔ t ∉ l := by
  unfold toggle
  by_cases h : t ∈ l <;> simp [h]

theorem mem_toggle_other (t c : JSString) (l : List JSString) (h : c ≠ t) :
    c ∈ toggle t l ↔ c ∈ l := by
  unfold toggle
  by_cases ht : t ∈ l <;> simp [ht, h]

theorem mem_toggle_toggle (t c : JSString) (l : List JSString) :
    c ∈ toggle t (toggle t l) ↔ c ∈ l := by
  by_cases h : c = t
  · subst h
    rw [mem_toggle_self, mem_toggle_self, not_not]
  · rw [mem_toggle_other _ _ _ h, mem_toggle_other _ _ _ h]

theorem toggle_filter_other (t : JSString) (l : List JSString) :
    (toggle t l).filter (fun c => c ≠ t) = l.filter (fun c => c ≠ t) := by
  unfold toggle
  by_cases h : t ∈ l <;> simp [h, List.filter_filter]

theorem toggle_toggle_of_not_mem (t : JSString) (l : List JSString) (h : t ∉ l) :
    toggle t (toggle t l) = l := by
  have h1 : toggle t l = l ++ [t] := by simp [toggle, h]
  have h2 : t ∈ l ++ [t] := by simp
  rw [h1]
  unfold toggle
  rw [if_pos h2, List.filter_append, List.filter_eq_self.mpr]
  · simp
  · intro c hc
    have : c ≠ t := fun hct => h (hct ▸ hc)
    simpa using this

theorem toggle_toggle_of_mem (t : JSString) (l : List JSString) (h : t ∈ l) :
    toggle t (toggle t l) = l.filter (fun c => c ≠ t) ++ [t] := by
  have h1 : toggle t l = l.filter (fun c => c ≠ t) := by simp [toggle, h]
  have h2 : t ∉ l.filter (fun c => c ≠ t) := by simp
  rw [h1]
  unfold toggle
  rw [if_neg h2]

theorem classListOf_pos (page : Page) (i : Nat) (c : JSString) (h : c ∈ classListOf page i) :
    i < page.length := by
  by_contra hlt
  simp [classListOf, List.getElem?_eq_none (Nat.le_of_not_lt hlt)] at h

theorem classListOf_toggleClass_same (page : Page) (i : Nat) (t : JSString)
    (h : i < page.length) :
    classListOf (toggleClass page i t) i = toggle t (classListOf page i) := by
  simp [classListOf, toggleClass, List.getElem?_modify, List.getElem?_eq_getElem h]

theorem classListOf_toggleClass_other (page : Page) (i j : Nat) (t : JSString) (h : i ≠ j) :
    classListOf (toggleClass page i t) j = classListOf page j := by
  simp only [classListOf, toggleClass, List.getElem?_modify]
  cases page[j]? with
  | none => rfl
  | some e => simp [h]

/-! ## The response handler of a like request -/

theorem onload_cases (icon : Nat) (xhr : Response) :
    (∀ page, (onload icon xhr page).state = page) ∨
    (∀ page, (onload icon xhr page).state = toggleClass page icon (str "like--active")) := by
  unfold onload
  by_cases h1 : xhr.readyState = 4
  · simp only [h1, if_true]
    cases JSONparse xhr.responseText with
    | error e => left; intro page; rfl
    | ok result =>
      by_cases h2 : xhr.status = 200
      · simp only [h2, if_true]
        cases getResult result with
        | error e => left; intro page; rfl
        | ok field =>
          by_cases h3 : isSuccess field = true
          · right; intro page; simp [h3]
          · left; intro page; simp [h3]
      · left; intro page; simp [h2]
  · left; intro page; simp [h1]

/-- C2. For a completed response (`readyState` 4) whose body parses as JSON, the handler
leaves the page with the class `like--active` toggled once on the clicked icon, and raises
nothing, when the status is 200 and the field `result` of the parsed body is the string
`success`: the class is on the icon afterwards exactly when it was not before. In every
other case the page is left exactly as it was. -/
theorem onload_toggles_iff_success (icon : Nat) (xhr : Response) (page : Page)
    (result : JSONValue) (hready : xhr.readyState = 4)
    (hjson : JSONparse xhr.responseText = .ok result) :
    ((xhr.status = 200 ∧ getResult result = .ok (some (JSONValue.string (str "success")))) →
      onload icon xhr page = ⟨toggleClass page icon (str "like--active"), none⟩ ∧
      (icon < page.length →
        classListOf (onload icon xhr page).state icon =
          toggle (str "like--active") (classListOf page icon) ∧
        (str "like--active" ∈ classListOf (onload icon xhr page).state icon ↔
          str "like--active" ∉ classListOf page icon))) ∧
    (¬ (xhr.status = 200 ∧ getResult result = .ok (some (JSONValue.string (str "success")))) →
      (onload icon xhr page).state = page) := by
  unfold onload
  simp only [hready, hjson, if_true]
  constructor
  · rintro ⟨hs, hr⟩
    simp only [hs, hr, if_true]
    rw [if_pos ((isSuccess_iff _).mpr rfl)]
    refine ⟨rfl, fun hlt => ?_⟩
    rw [classListOf_toggleClass_same page icon _ hlt]
    exact ⟨rfl, mem_toggle_self _ _⟩
  · intro hn
    by_cases hs : xhr.status = 200
    · simp only [hs, if_true]
      cases hr : getResult result with
      | error e => rfl
      | ok field =>
        have hf : ¬ isSuccess field = true := by
          intro hf
          apply hn
          refine ⟨hs, ?_⟩
          rw [hr, (isSuccess_iff field).mp hf]
        simp [hf]
    · simp [hs]

/-- Witness for C2 on the sample page: status 200 with body `{"result":"success"}` adds the
class to the icon, and the same response again removes it; status 403 with that body, and
status 200 with body `{"result":"error"}`, leave the page unchanged. -/
theorem onload_toggles_iff_success_witness :
    (completed 200 "\x7b\"result\":\"success\"\x7d").readyState = 4 ∧
    JSONparse (completed 200 "\x7b\"result\":\"success\"\x7d").responseText =
      .ok (JSONValue.object [(str "result", JSONValue.string (str "success"))]) ∧
    onload 2 (completed 200 "\x7b\"result\":\"success\"\x7d") likePage =
      ⟨toggleClass likePage 2 (str "like--active"), none⟩ ∧
    classListOf (toggleClass likePage 2 (str "like--active")) 2 = [str "like", str "like--active"] ∧
    classListOf (onload 2 (completed 200 "\x7b\"result\":\"success\"\x7d")
      (toggleClass likePage 2 (str "like--active"))).state 2 = [str "like"] ∧
    (onload 2 (completed 403 "\x7b\"result\":\"success\"\x7d") likePage).state = likePage ∧
    (onload 2 (completed 200 "\x7b\"result\":\"error\"\x7d") likePage).state = likePage :=
  ⟨rfl, rfl,
   ((onload_toggles_iff_success 2 (completed 200 "\x7b\"result\":\"success\"\x7d") likePage
      (JSONValue.object [(str "result", JSONValue.string (str "success"))]) rfl rfl).1
      ⟨rfl, rfl⟩).1,
   by decide, by decide, by decide, by decide⟩

theorem onload_state_comm (icon : Nat) (r1 r2 : Response) (page : Page) :
    (onload icon r2 (onload icon r1 page).state).state =
      (onload icon r1 (onload icon r2 page).state).state := by
  rcases onload_cases icon r1 with h1 | h1 <;> rcases onload_cases icon r2 with h2 | h2 <;>
    simp only [h1, h2]

/-- C3, as the code has it. For a completed response whose status is not 200 the handler
never applies the toggle: the page is left as it was. The body is parsed whatever the
status, so the handler ends without an error exactly when the body is valid JSON and
otherwise ends with the error thrown by `JSON.parse`. -/
theorem onload_not_200 (icon : Nat) (xhr : Response) (page : Page)
    (hready : xhr.readyState = 4) (hstatus : xhr.status ≠ 200) :
    onload icon xhr page =
      ⟨page, match JSONparse xhr.responseText with
             | .ok _ => none
             | .error e => some e⟩ := by
  unfold onload
  simp only [hready, if_true]
  cases JSONparse xhr.responseText with
  | error e => rfl
  | ok result => simp [hstatus]

/-- Witness for C3 as amended: a 403 response with the JSON body `{"result":"error"}` ends
silently with the page unchanged. -/
theorem onload_not_200_witness :
    (completed 403 "\x7b\"result\":\"error\"\x7d").readyState = 4 ∧
    (completed 403 "\x7b\"result\":\"error\"\x7d").status ≠ 200 ∧
    onload 2 (completed 403 "\x7b\"result\":\"error\"\x7d") likePage = ⟨likePage, none⟩ :=
  ⟨rfl, by decide,
   onload_not_200 2 (completed 403 "\x7b\"result\":\"error\"\x7d") likePage rfl (by decide)⟩

/-- Counterexample to C3 as stated: a completed 403 response whose body is an HTML error
page makes the handler end with a `SyntaxError`, because the body is parsed before the
status is looked at. -/
theorem onload_403_html_raises :
    (completed 403 "<html>Forbidden</html>").readyState = 4 ∧
    (completed 403 "<html>Forbidden</html>").status ≠ 200 ∧
    onload 2 (completed 403 "<html>Forbidden</html>") likePage =
      ⟨likePage, some JSError.SyntaxError⟩ := by
  decide

/-- C4. For a completed response whose body is not valid JSON the handler ends with the
uncaught `SyntaxError` of `JSON.parse` and leaves the whole page, hence the classes of the
clicked icon and of every other element, exactly as it was. -/
theorem onload_invalid_json (icon : Nat) (xhr : Response) (page : Page)
    (hready : xhr.readyState = 4)
    (hbad : ∀ v, JSONparse xhr.responseText ≠ .ok v) :
    onload icon xhr page = ⟨page, some JSError.SyntaxError⟩ ∧
    ∀ other, classListOf (onload icon xhr page).state other = classListOf page other := by
  have h : onload icon xhr page = ⟨page, some JSError.SyntaxError⟩ := by
    unfold onload
    simp only [hready, if_true]
    cases hp : JSONparse xhr.responseText with
    | error e => rw [JSONparse_error _ _ hp]
    | ok result => exact absurd hp (hbad result)
  exact ⟨h, fun other => by rw [h]⟩

/-- Witness for C4: a completed 200 response with the body `<html>`. -/
theorem onload_invalid_json_witness :
    (completed 200 "<html>").readyState = 4 ∧
    (∀ v, JSONparse (completed 200 "<html>").responseText ≠ .ok v) ∧
    onload 2 (completed 200 "<html>") likePage = ⟨likePage, some JSError.SyntaxError⟩ :=
  have hbad : ∀ v, JSONparse (completed 200 "<html>").responseText ≠ .ok v := by
    intro v h
    have h2 : JSONparse (completed 200 "<html>").responseText = .error JSError.SyntaxError := rfl
    rw [h2] at h
    cases h
  ⟨rfl, hbad, (onload_invalid_json 2 (completed 200 "<html>") likePage rfl hbad).1⟩

/-- C9, as the code has it. The order in which two responses for the same icon arrive does
not matter: running the handler on `r1` then `r2` leaves the same page, hence the same
`like--active` membership of the icon, as running it on `r2` then `r1`. -/
theorem onload_order_irrelevant (icon : Nat) (r1 r2 : Response) (page : Page) :
    (onload icon r2 (onload icon r1 page).state).state =
      (onload icon r1 (onload icon r2 page).state).state ∧
    (str "like--active" ∈ classListOf (onload icon r2 (onload icon r1 page).state).state icon ↔
      str "like--active" ∈ classListOf (onload icon r1 (onload icon r2 page).state).state icon) := by
  have h := onload_state_comm icon r1 r2 page
  exact ⟨h, by rw [h]⟩

/-- Refutation of C9 as stated: there are no page, icon and two completed responses for
which the two arrival orders leave a different `like--active` membership on the icon. -/
theorem no_arrival_order_dependence :
    ¬ ∃ (page : Page) (icon : Nat) (r1 r2 : Response),
        r1.readyState = 4 ∧ r2.readyState = 4 ∧
        ¬ (str "like--active" ∈
              classListOf (onload icon r2 (onload icon r1 page).state).state icon ↔
            str "like--active" ∈
              classListOf (onload icon r1 (onload icon r2 page).state).state icon) := by
  rintro ⟨page, icon, r1, r2, -, -, h⟩
  apply h
  rw [onload_state_comm icon r1 r2 page]

/-! ## URLs of plain identifiers -/

theorem isPlainChar_range (c : Nat) (h : isPlainChar c = true) :
    (48 ≤ c ∧ c ≤ 57) ∨ (65 ≤ c ∧ c ≤ 90) ∨ (97 ≤ c ∧ c ≤ 122) ∨ c = 45 ∨ c = 95 := by
  simpa [isPlainChar, or_assoc] using h

theorem toCodePointsAux_small (l : JSString) (h : ∀ c ∈ l, c < 0xD800) :
    toCodePointsAux none l = l := by
  induction l with
  | nil => rfl
  | cons c rest ih =>
    have hc := h c (List.mem_cons_self _ _)
    have h1 : ¬ (0xD800 ≤ c ∧ c ≤ 0xDBFF) := by omega
    have h2 : ¬ (0xDC00 ≤ c ∧ c ≤ 0xDFFF) := by omega
    rw [toCodePointsAux, if_neg h1, if_neg h2, ih (fun x hx => h x (List.mem_cons_of_mem _ hx))]

theorem dropWhile_none (p : Nat → Bool) (l : List Nat) (h : ∀ c ∈ l, p c = false) :
    l.dropWhile p = l := by
  cases l with
  | nil => rfl
  | cons c rest => rw [List.dropWhile_cons, h c (List.mem_cons_self _ _)]; rfl

theorem cleanURL_printable (l : List Nat) (h : ∀ c ∈ l, 0x20 < c) : cleanURL l = l := by
  unfold cleanURL
  have hp : ∀ c ∈ l, (fun c => decide (c ≤ 0x20)) c = false := by
    intro c hc
    have := h c hc
    simp
    omega
  have hr : ∀ c ∈ l.reverse, (fun c => decide (c ≤ 0x20)) c = false := by
    intro c hc
    exact hp c (List.mem_reverse.mp hc)
  rw [dropWhile_none _ l hp, dropWhile_none _ _ hr, List.reverse_reverse, List.filter_eq_self]
  intro c hc
  have := h c hc
  simp
  omega

theorem dot_segment_head (segment : JSString)
    (h : isSingleDot segment = true ∨ isDoubleDot segment = true) :
    segment.head? = some 46 ∨ segment.head? = some 37 := by
  simp only [isSingleDot, isDoubleDot, decide_eq_true_eq, List.mem_cons, List.mem_singleton,
    List.not_mem_nil, or_false] at h
  rcases h with (h | h | h) | (h | h | h | h | h | h | h | h | h) <;> subst h <;> decide

theorem endSegment_plain (path : List JSString) (segment : JSString)
    (h : ∀ c ∈ segment, isPlainChar c = true) :
    endSegment path segment false = path ++ [segment] := by
  have hhead : ¬ (segment.head? = some 46 ∨ segment.head? = some 37) := by
    cases segment with
    | nil => simp
    | cons c rest =>
      have := isPlainChar_range c (h c (List.mem_cons_self _ _))
      simp only [List.head?_cons, Option.some.injEq]
      omega
  have h1 : isDoubleDot segment = false := by
    cases hd : isDoubleDot segment with
    | false => rfl
    | true => exact absurd (dot_segment_head segment (Or.inr hd)) hhead
  have h2 : isSingleDot segment = false := by
    cases hd : isSingleDot segment with
    | false => rfl
    | true => exact absurd (dot_segment_head segment (Or.inl hd)) hhead
  simp [endSegment, h1, h2]

theorem percentEncode_plain (c : Nat) (h : isPlainChar c = true) :
    percentEncode inPathSet c = [c] := by
  have hr := isPlainChar_range c h
  have hset : inPathSet c = false := by
    simp only [inPathSet, inQuerySet, Bool.or_eq_false_iff, decide_eq_false_iff_not]
    omega
  simp [percentEncode, hset]

theorem pathState_plain (l : List Nat) (h : ∀ c ∈ l, isPlainChar c = true)
    (path : List JSString) (buffer : JSString) :
    pathState l path buffer = (endSegment path (buffer ++ l) false, none) := by
  induction l generalizing buffer with
  | nil => simp [pathState]
  | cons c rest ih =>
    have hc := h c (List.mem_cons_self _ _)
    have hr := isPlainChar_range c hc
    have h1 : ¬ (c = 0x2F ∨ c = 0x5C) := by omega
    have h2 : ¬ c = 0x3F := by omega
    have h3 : ¬ c = 0x23 := by omega
    rw [pathState, if_neg h1, if_neg h2, if_neg h3, percentEncode_plain c hc,
      ih (fun x hx => h x (List.mem_cons_of_mem _ hx))]
    simp

theorem parseURL_like_plain (pk : JSString) (h : ∀ c ∈ pk, isPlainChar c = true) :
    parseURL (str "/like/" ++ pk) = ParsedURL.sameOrigin [str "like", pk] none := by
  have hstr : str "/like/" ++ pk = 47 :: 108 :: 105 :: 107 :: 101 :: 47 :: pk := by
    have : str "/like/" = [47, 108, 105, 107, 101, 47] := by decide
    rw [this]; rfl
  have hbound : ∀ c ∈ (47 :: 108 :: 105 :: 107 :: 101 :: 47 :: pk : List Nat),
      0x20 < c ∧ c < 0xD800 := by
    intro c hc
    simp only [List.mem_cons] at hc
    rcases hc with rfl | rfl | rfl | rfl | rfl | rfl | hc
    · omega
    · omega
    · omega
    · omega
    · omega
    · omega
    · have hr := isPlainChar_range c (h c hc)
      omega
  unfold parseURL toCodePoints
  rw [hstr, toCodePointsAux_small _ (fun c hc => (hbound c hc).2),
    cleanURL_printable _ (fun c hc => (hbound c hc).1)]
  have hstep : pathState (108 :: 105 :: 107 :: 101 :: 47 :: pk) [] [] =
      pathState pk [str "like"] [] := rfl
  simp only [hstep, pathState_plain pk h, List.nil_append, endSegment_plain [str "like"] pk h]
  simp

theorem serializePath_like (pk : JSString) :
    serializePath [str "like", pk] = str "/like/" ++ pk := by
  have : str "/like/" = [47, 108, 105, 107, 101, 47] := by decide
  rw [this]
  have h2 : str "like" = [108, 105, 107, 101] := by decide
  simp [serializePath, h2]

/-! ## The click handler of a like icon -/

theorem likeClick_eq (csrftoken : Option JSString) (icon : Nat) (w : LikeWorld) :
    likeClick csrftoken icon w =
      match headerValue csrftoken with
      | .ok v =>
        ⟨{ page := w.page,
           sent := w.sent ++
             [{ method := str "POST",
                url := parseURL
                  (str "/like/" ++ toStringValue (getAttribute w.page icon (str "data-pk"))),
                async := true,
                headers := [(str "X-CSRFToken", v)],
                body := none }] }, none⟩
      | .error e => ⟨w, some e⟩ := by
  have hname : isHeaderName (str "X-CSRFToken") = true := by decide
  unfold likeClick setRequestHeader headerValue
  cases toByteString csrftoken with
  | error e => rfl
  | ok bytes =>
    by_cases hv : isHeaderValue (normalizeHeaderValue bytes) = true
    · simp [hname, hv, xhrOpen]
    · simp [hv]

theorem likePostScript_listener (documentCookie : JSString) (page : Page) (l : LikeListener)
    (hl : l ∈ (likePostScript documentCookie page).state) :
    getCookie documentCookie (str "csrftoken") = .ok l.csrftoken := by
  unfold likePostScript at hl
  cases hc : getCookie documentCookie (str "csrftoken") with
  | error e => rw [hc] at hl; simp at hl
  | ok token =>
    rw [hc] at hl
    simp only [List.mem_map] at hl
    obtain ⟨icon, -, rfl⟩ := hl
    rfl

/-- C5, as the code has it. For every click listener the script registers and every state
of the page and of the network, whatever was clicked or sent before: the token the listener
holds is the value `getCookie("csrftoken")` returned at page load, and when that token is
acceptable to `setRequestHeader` (its string form has no code unit above 255 and, once
leading and trailing tab, line feed, carriage return and space are stripped, no NUL, line
feed or carriage return) one click appends exactly one request to those already sent: method
`POST`, asynchronous, the URL obtained by parsing `/like/` followed by the string form of the
icon's `data-pk`, read at click time, against the URL of the document, the single header
`X-CSRFToken` carrying that stripped string form (the token itself when it is a string that
stripping does not change), and no body. When `data-pk` consists of ASCII letters, digits,
`-` and `_`, the URL is on the origin of the document, has no query and has the path `/like/`
followed by the value of `data-pk`. -/
theorem likeClick_sends_one_request (documentCookie : JSString) (page : Page)
    (l : LikeListener) (w : LikeWorld) (v : JSString)
    (hl : l ∈ (likePostScript documentCookie page).state)
    (hv : headerValue l.csrftoken = .ok v) :
    getCookie documentCookie (str "csrftoken") = .ok l.csrftoken ∧
    likeClick l.csrftoken l.icon w =
      ⟨{ page := w.page,
         sent := w.sent ++
           [{ method := str "POST",
              url := parseURL
                (str "/like/" ++ toStringValue (getAttribute w.page l.icon (str "data-pk"))),
              async := true,
              headers := [(str "X-CSRFToken", v)],
              body := none }] }, none⟩ ∧
    v = normalizeHeaderValue (toStringValue l.csrftoken) ∧
    (∀ pk, getAttribute w.page l.icon (str "data-pk") = some pk →
      (∀ c ∈ pk, isPlainChar c = true) →
      parseURL (str "/like/" ++ toStringValue (getAttribute w.page l.icon (str "data-pk"))) =
        ParsedURL.sameOrigin [str "like", pk] none ∧
      serializePath [str "like", pk] = str "/like/" ++ pk) ∧
    (∀ t, l.csrftoken = some t → normalizeHeaderValue t = t → v = t) := by
  have hnorm : v = normalizeHeaderValue (toStringValue l.csrftoken) := by
    unfold headerValue toByteString at hv
    split at hv
    · cases hv
    · rename_i bytes hb
      split at hb
      · cases hb
        split at hv
        · cases hv; rfl
        · cases hv
      · cases hb
  refine ⟨likePostScript_listener documentCookie page l hl, ?_, hnorm, ?_, ?_⟩
  · rw [likeClick_eq, hv]
  · intro pk hpk hplain
    rw [hpk]
    exact ⟨parseURL_like_plain pk hplain, serializePath_like pk⟩
  · intro t ht hn
    rw [hnorm, ht]
    exact hn

/-- Witness for C5 as amended: with the cookie string `a=1; csrftoken=XYZ; b=2` the icon
with `data-pk="42"` yields a `POST` to the path `/like/42` with header `X-CSRFToken: XYZ` and
no body, and a second click yields a second such request. -/
theorem likeClick_sends_one_request_witness :
    (⟨2, some (str "XYZ")⟩ : LikeListener) ∈
      (likePostScript (str "a=1; csrftoken=XYZ; b=2") likePage).state ∧
    headerValue (some (str "XYZ")) = .ok (str "XYZ") ∧
    likeClick (some (str "XYZ")) 2 ⟨likePage, []⟩ =
      ⟨⟨likePage, [⟨str "POST", ParsedURL.sameOrigin [str "like", str "42"] none, true,
          [(str "X-CSRFToken", str "XYZ")], none⟩]⟩, none⟩ ∧
    serializePath [str "like", str "42"] = str "/like/42" ∧
    (likeClick (some (str "XYZ")) 2 (likeClick (some (str "XYZ")) 2 ⟨likePage, []⟩).state).state.sent =
      [⟨str "POST", ParsedURL.sameOrigin [str "like", str "42"] none, true,
          [(str "X-CSRFToken", str "XYZ")], none⟩,
       ⟨str "POST", ParsedURL.sameOrigin [str "like", str "42"] none, true,
          [(str "X-CSRFToken", str "XYZ")], none⟩] :=
  ⟨by decide, by decide,
   (likeClick_sends_one_request (str "a=1; csrftoken=XYZ; b=2") likePage ⟨2, some (str "XYZ")⟩
      ⟨likePage, []⟩ (str "XYZ") (by decide) (by decide)).2.1,
   by decide, by decide⟩

/-- Counterexample to C5 as stated. With the cookie string `csrftoken=%E3%81%82` the token
read at page load is the one-character string U+3042; a click on the icon then throws the
`TypeError` of the `ByteString` conversion in `setRequestHeader`, and no request is sent.
And with `data-pk="../7"` the request goes to the path `/7`, not to `/like/../7`. -/
theorem likeClick_non_latin1_token_sends_nothing :
    likePostScript (str "csrftoken=%E3%81%82") likePage = ⟨[⟨2, some [0x3042]⟩], none⟩ ∧
    likeClick (some [0x3042]) 2 ⟨likePage, []⟩ = ⟨⟨likePage, []⟩, some JSError.TypeError⟩ ∧
    getAttribute dotsPage 2 (str "data-pk") = some (str "../7") ∧
    likeClick (some (str "XYZ")) 2 ⟨dotsPage, []⟩ =
      ⟨⟨dotsPage, [⟨str "POST", ParsedURL.sameOrigin [str "7"] none, true,
          [(str "X-CSRFToken", str "XYZ")], none⟩]⟩, none⟩ ∧
    serializePath [str "7"] = str "/7" ∧
    str "/7" ≠ str "/like/../7" := by
  decide

/-- C10, as the code has it. When no entry of the cookie string begins with `csrftoken=`,
`getCookie("csrftoken")` is the absent value `null`, and every click on a like icon sends
one request whose header `X-CSRFToken` carries the four-character text `null`, the string
form `setRequestHeader` gives to the absent value. -/
theorem likeClick_without_cookie (documentCookie : JSString) (page : Page)
    (l : LikeListener) (w : LikeWorld)
    (hno : hasCookie documentCookie (str "csrftoken") = false)
    (hl : l ∈ (likePostScript documentCookie page).state) :
    getCookie documentCookie (str "csrftoken") = .ok none ∧
    l.csrftoken = none ∧
    likeClick l.csrftoken l.icon w =
      ⟨{ page := w.page,
         sent := w.sent ++
           [{ method := str "POST",
              url := parseURL
                (str "/like/" ++ toStringValue (getAttribute w.page l.icon (str "data-pk"))),
              async := true,
              headers := [(str "X-CSRFToken", str "null")],
              body := none }] }, none⟩ := by
  have hnone := getCookie_of_not_hasCookie documentCookie (str "csrftoken") hno
  have htok : l.csrftoken = none := by
    have h := likePostScript_listener documentCookie page l hl
    rw [hnone] at h
    injection h with h
    exact h.symm
  refine ⟨hnone, htok, ?_⟩
  rw [likeClick_eq, htok]
  have : headerValue none = .ok (str "null") := by decide
  rw [this]

/-- Witness for C10 as amended: the cookie string `a=1; b=2` on the sample page. -/
theorem likeClick_without_cookie_witness :
    hasCookie (str "a=1; b=2") (str "csrftoken") = false ∧
    (⟨2, none⟩ : LikeListener) ∈ (likePostScript (str "a=1; b=2") likePage).state ∧
    likeClick none 2 ⟨likePage, []⟩ =
      ⟨⟨likePage, [⟨str "POST", ParsedURL.sameOrigin [str "like", str "42"] none, true,
          [(str "X-CSRFToken", str "null")], none⟩]⟩, none⟩ :=
  ⟨by decide, by decide,
   (likeClick_without_cookie (str "a=1; b=2") likePage ⟨2, none⟩ ⟨likePage, []⟩
      (by decide) (by decide)).2.2⟩

/-- Counterexample to C10 as stated: with an empty cookie string the token is absent, and
the request sent by a click carries `X-CSRFToken` with the non-empty text `null`. -/
theorem missing_cookie_header_is_text_null :
    hasCookie (str "") (str "csrftoken") = false ∧
    likePostScript (str "") likePage = ⟨[⟨2, none⟩], none⟩ ∧
    (likeClick none 2 ⟨likePage, []⟩).state.sent.map (fun r => r.headers) =
      [[(str "X-CSRFToken", [110, 117, 108, 108])]] ∧
    ([110, 117, 108, 108] : JSString) ≠ [] := by
  decide

/-! ## Event dispatch -/

theorem parents_toggleClass (page : Page) (i : Nat) (t : JSString) :
    (toggleClass page i t).map Element.parent = page.map Element.parent := by
  apply List.ext_getElem?
  intro k
  simp only [toggleClass, List.getElem?_map, List.getElem?_modify]
  cases page[k]? with
  | none => rfl
  | some e => by_cases h : i = k <;> simp [h]

theorem parentElement_of_parents (pg page : Page)
    (h : pg.map Element.parent = page.map Element.parent) (j : Nat) :
    parentElement pg j = parentElement page j := by
  have h2 : (pg.map Element.parent)[j]? = (page.map Element.parent)[j]? := by rw [h]
  simp only [List.getElem?_map] at h2
  unfold parentElement
  cases h3 : pg[j]? <;> cases h4 : page[j]? <;> simp_all

theorem ancestorsAux_of_parents (pg page : Page)
    (h : pg.map Element.parent = page.map Element.parent) (fuel i : Nat) :
    ancestorsAux pg fuel i = ancestorsAux page fuel i := by
  induction fuel generalizing i with
  | zero => rfl
  | succ n ih =>
    simp only [ancestorsAux, parentElement_of_parents pg page h]
    cases parentElement page i with
    | none => rfl
    | some p => simp [ih]

theorem eventPath_of_parents (pg page : Page)
    (h : pg.map Element.parent = page.map Element.parent) (target : Nat) :
    eventPath pg target = eventPath page target :=
  ancestorsAux_of_parents pg page h _ _

theorem parents_foldl (ls : List MenuListener) (pg : Page) :
    (ls.foldl menuListenerRun pg).map Element.parent = pg.map Element.parent := by
  induction ls generalizing pg with
  | nil => rfl
  | cons l rest ih =>
    rw [List.foldl_cons, ih]
    exact parents_toggleClass pg l.menu _

theorem classListOf_foldl (ls : List MenuListener) (pg : Page) (m : Nat) (hm : m < pg.length) :
    classListOf (ls.foldl menuListenerRun pg) m =
      (toggle (str "action-menu--active"))^[(ls.filter (fun l => l.menu = m)).length]
        (classListOf pg m) := by
  induction ls generalizing pg with
  | nil => rfl
  | cons l rest ih =>
    have hlen : m < (menuListenerRun pg l).length := by
      simpa [menuListenerRun, toggleClass] using hm
    rw [List.foldl_cons, ih _ hlen]
    by_cases h : l.menu = m
    · simp only [List.filter_cons, h, decide_True, if_true, List.length_cons,
        Function.iterate_succ, Function.comp]
      rw [menuListenerRun, h, classListOf_toggleClass_same pg m _ hm]
    · simp only [List.filter_cons, h, decide_False]
      rw [menuListenerRun, classListOf_toggleClass_other pg _ _ _ h]
      rfl

theorem ancestorsAux_le (page : Page) (hwf : WellFormed page) (fuel i : Nat) :
    ∀ x ∈ ancestorsAux page fuel i, x ≤ i := by
  induction fuel generalizing i with
  | zero => intro x hx; simp [ancestorsAux] at hx
  | succ n ih =>
    intro x hx
    simp only [ancestorsAux, List.mem_cons] at hx
    rcases hx with rfl | hx
    · exact le_refl _
    · cases hp : parentElement page i with
      | none => rw [hp] at hx; simp at hx
      | some p =>
        rw [hp] at hx
        exact le_trans (ih p x hx) (le_of_lt (hwf i p hp))

theorem eventPath_eq_cons (page : Page) (hwf : WellFormed page) (target : Nat) :
    ∃ rest, eventPath page target = target :: rest ∧ ∀ x ∈ rest, x < target := by
  unfold eventPath
  simp only [ancestorsAux]
  refine ⟨_, rfl, ?_⟩
  intro x hx
  cases hp : parentElement page target with
  | none => rw [hp] at hx; simp at hx
  | some p =>
    rw [hp] at hx
    exact lt_of_le_of_lt (ancestorsAux_le page hwf _ p x hx) (hwf target p hp)

/-- In tree order the bound on the number of steps is never reached: more steps give the
same propagation path. -/
theorem ancestorsAux_fuel (page : Page) (hwf : WellFormed page) (i k : Nat) :
    ancestorsAux page (i + 1 + k) i = ancestorsAux page (i + 1) i := by
  induction i using Nat.strong_induction_on generalizing k with
  | _ i ih =>
    have e1 : i + 1 + k = (i + k) + 1 := by omega
    rw [e1]
    simp only [ancestorsAux]
    cases hp : parentElement page i with
    | none => rfl
    | some p =>
      have hlt := hwf i p hp
      have e2 : i + k = p + 1 + (i + k - (p + 1)) := by omega
      have e3 : i = p + 1 + (i - (p + 1)) := by omega
      simp only [List.cons.injEq, true_and]
      rw [e2, ih p hlt]
      conv_rhs => rw [e3, ih p hlt]

/-! ## The menu toggle -/

theorem bindMenusLoop_parent (page : Page) (menus : List Nat) (registered : List MenuListener)
    (hreg : ∀ l ∈ registered, parentElement page l.menu = some l.button) :
    ∀ l ∈ (bindMenusLoop page menus registered).state,
      parentElement page l.menu = some l.button := by
  induction menus generalizing registered with
  | nil => exact hreg
  | cons m rest ih =>
    unfold bindMenusLoop
    cases hp : parentElement page m with
    | none => exact hreg
    | some b =>
      apply ih
      intro l hl
      rw [List.mem_append, List.mem_singleton] at hl
      rcases hl with hl | rfl
      · exact hreg l hl
      · exact hp

theorem bindMenusLoop_filter (page : Page) (menus : List Nat) (registered : List MenuListener)
    (m p : Nat) (hnodup : menus.Nodup) (hp : parentElement page m = some p)
    (hok : (bindMenusLoop page menus registered).error = none) :
    (bindMenusLoop page menus registered).state.filter (fun l => l.menu = m) =
      registered.filter (fun l => l.menu = m) ++ (if m ∈ menus then [⟨p, m⟩] else []) := by
  induction menus generalizing registered with
  | nil => simp [bindMenusLoop]
  | cons x rest ih =>
    unfold bindMenusLoop at hok ⊢
    cases hx : parentElement page x with
    | none => rw [hx] at hok; simp at hok
    | some b =>
      rw [hx] at hok
      simp only at hok ⊢
      rw [ih _ (List.nodup_cons.mp hnodup).2 hok, List.filter_append]
      by_cases hxm : x = m
      · subst hxm
        have hb : b = p := by rw [hx] at hp; exact Option.some.inj hp
        have hnot : x ∉ rest := (List.nodup_cons.mp hnodup).1
        simp [hb, hnot]
      · have hmx : ¬ m = x := fun h => hxm h.symm
        simp [hxm, hmx]

theorem actionMenuScript_filter (page : Page) (m p : Nat)
    (hmenu : str "action-menu" ∈ classListOf page m) (hp : parentElement page m = some p)
    (hok : (actionMenuScript page).error = none) :
    (actionMenuScript page).state.filter (fun l => l.menu = m) = [⟨p, m⟩] := by
  unfold actionMenuScript at hok ⊢
  have hnodup : (getElementsByClassName page (str "action-menu")).Nodup :=
    (List.nodup_range _).filter _
  have hmem : m ∈ getElementsByClassName page (str "action-menu") := by
    unfold getElementsByClassName
    rw [List.mem_filter, List.mem_range]
    exact ⟨classListOf_pos page m _ hmenu, by simpa using hmenu⟩
  rw [bindMenusLoop_filter page _ [] m p hnodup hp hok]
  simp [hmem]

theorem invoked_filter (ls : List MenuListener) (page : Page) (target m : Nat) :
    (invoked ls page target).filter (fun l => l.menu = m) =
      (eventPath page target).flatMap
        (fun node => (ls.filter (fun l => l.menu = m)).filter (fun l => l.button = node)) := by
  unfold invoked
  rw [List.filter_flatMap]
  congr 1
  funext node
  rw [List.filter_filter, List.filter_filter]
  congr 1
  funext l
  exact Bool.and_comm _ _

theorem invoked_menu_once (page : Page) (hwf : WellFormed page) (m p : Nat)
    (hmenu : str "action-menu" ∈ classListOf page m) (hp : parentElement page m = some p)
    (hok : (actionMenuScript page).error = none) :
    (invoked (actionMenuScript page).state page p).filter (fun l => l.menu = m) = [⟨p, m⟩] := by
  rw [invoked_filter, actionMenuScript_filter page m p hmenu hp hok]
  obtain ⟨rest, hpath, hrest⟩ := eventPath_eq_cons page hwf p
  rw [hpath, List.flatMap_cons]
  have htail : rest.flatMap
      (fun node => ([(⟨p, m⟩ : MenuListener)]).filter (fun l => l.button = node)) = [] := by
    rw [List.flatMap_eq_nil_iff]
    intro node hnode
    have : p ≠ node := fun h => by
      have := hrest node hnode
      omega
    simp [this]
  rw [htail]
  simp

theorem invoked_of_parents (ls : List MenuListener) (pg page : Page)
    (h : pg.map Element.parent = page.map Element.parent) (target : Nat) :
    invoked ls pg target = invoked ls page target := by
  unfold invoked
  rw [eventPath_of_parents pg page h]

theorem bindMenusLoop_completes (page : Page) (menus : List Nat)
    (registered : List MenuListener)
    (h : ∀ m ∈ menus, parentElement page m ≠ none) :
    (bindMenusLoop page menus registered).error = none := by
  induction menus generalizing registered with
  | nil => rfl
  | cons x rest ih =>
    unfold bindMenusLoop
    cases hx : parentElement page x with
    | none => exact absurd hx (h x (List.mem_cons_self _ _))
    | some b => exact ih _ (fun m hm => h m (List.mem_cons_of_mem _ hm))

theorem actionMenuScript_completes (page : Page)
    (h : ∀ i, str "action-menu" ∈ classListOf page i → parentElement page i ≠ none) :
    (actionMenuScript page).error = none := by
  apply bindMenusLoop_completes
  intro m hm
  unfold getElementsByClassName at hm
  rw [List.mem_filter] at hm
  exact h m (by simpa using hm.2)

theorem click_menu_once (page pg : Page) (m p : Nat) (hwf : WellFormed page)
    (hok : (actionMenuScript page).error = none)
    (hmenu : str "action-menu" ∈ classListOf page m)
    (hp : parentElement page m = some p)
    (hshape : pg.map Element.parent = page.map Element.parent) :
    classListOf (click (actionMenuScript page).state pg p) m =
      toggle (str "action-menu--active") (classListOf pg m) := by
  have hlen : m < pg.length := by
    have h1 := classListOf_pos page m _ hmenu
    have h2 : pg.length = page.length := by
      have := congrArg List.length hshape
      simpa using this
    omega
  unfold click
  rw [classListOf_foldl _ pg m hlen, invoked_of_parents _ pg page hshape,
    invoked_menu_once page hwf m p hmenu hp hok]
  rfl

theorem click_parents (ls : List MenuListener) (pg : Page) (target : Nat) :
    (click ls pg target).map Element.parent = pg.map Element.parent :=
  parents_foldl _ pg

theorem click_other_menu (page pg : Page) (target b pb : Nat)
    (hb : parentElement page b = some pb)
    (hoff : pb ∉ eventPath page target)
    (hshape : pg.map Element.parent = page.map Element.parent) :
    classListOf (click (actionMenuScript page).state pg target) b = classListOf pg b := by
  by_cases hlen : b < pg.length
  · unfold click
    rw [classListOf_foldl _ pg b hlen, invoked_of_parents _ pg page hshape]
    have hnil : (invoked (actionMenuScript page).state page target).filter
        (fun l => l.menu = b) = [] := by
      rw [List.filter_eq_nil_iff]
      intro l hl hlb
      have hlb2 : l.menu = b := by simpa using hlb
      unfold invoked at hl
      rw [List.mem_flatMap] at hl
      obtain ⟨node, hnode, hl2⟩ := hl
      rw [List.mem_filter] at hl2
      have hbutton : l.button = node := by simpa using hl2.2
      have hpar := bindMenusLoop_parent page (getElementsByClassName page (str "action-menu")) []
        (by intro l hl; simp at hl) l hl2.1
      rw [hlb2, hb] at hpar
      have : pb = node := by
        rw [← hbutton]
        exact Option.some.inj hpar
      exact hoff (this ▸ hnode)
    rw [hnil]
    rfl
  · have h1 : ∀ q : Page, q.length = pg.length → classListOf q b = [] := by
      intro q hq
      simp [classListOf, List.getElem?_eq_none (by omega : q.length ≤ b)]
    have h2 : (click (actionMenuScript page).state pg target).length = pg.length := by
      have := congrArg List.length (click_parents (actionMenuScript page).state pg target)
      simpa using this
    rw [h1 _ h2, h1 pg rfl]

/-- C6, as the code has it. Let `action-menu.js` have run once on a page, in tree order,
where every element with class `action-menu` has a parent element, so that its listeners
are the only click listeners for the menus; let `m` be such an element and `p` its parent.
In every later state of the page (same tree, any classes) one click on `p` toggles
`action-menu--active` on `m` exactly once: the token is present afterwards exactly when it
was absent before, and every other class of `m` keeps its membership and its place. A second
click restores the class membership `m` had before the first; the class list itself is
restored when the token was absent at the start, and otherwise ends with the token moved to
the last place. -/
theorem menu_click_toggles_once (page pg : Page) (m p : Nat) (hwf : WellFormed page)
    (hparents : ∀ i, str "action-menu" ∈ classListOf page i → parentElement page i ≠ none)
    (hmenu : str "action-menu" ∈ classListOf page m)
    (hp : parentElement page m = some p)
    (hshape : pg.map Element.parent = page.map Element.parent) :
    classListOf (click (actionMenuScript page).state pg p) m =
      toggle (str "action-menu--active") (classListOf pg m) ∧
    (str "action-menu--active" ∈ classListOf (click (actionMenuScript page).state pg p) m ↔
      str "action-menu--active" ∉ classListOf pg m) ∧
    (∀ c, c ≠ str "action-menu--active" →
      (c ∈ classListOf (click (actionMenuScript page).state pg p) m ↔ c ∈ classListOf pg m)) ∧
    (classListOf (click (actionMenuScript page).state pg p) m).filter
        (fun c => c ≠ str "action-menu--active") =
      (classListOf pg m).filter (fun c => c ≠ str "action-menu--active") ∧
    (∀ c, c ∈ classListOf
        (click (actionMenuScript page).state (click (actionMenuScript page).state pg p) p) m ↔
      c ∈ classListOf pg m) ∧
    (str "action-menu--active" ∉ classListOf pg m →
      classListOf
        (click (actionMenuScript page).state (click (actionMenuScript page).state pg p) p) m =
      classListOf pg m) ∧
    (str "action-menu--active" ∈ classListOf pg m →
      classListOf
        (click (actionMenuScript page).state (click (actionMenuScript page).state pg p) p) m =
      (classListOf pg m).filter (fun c => c ≠ str "action-menu--active") ++
        [str "action-menu--active"]) := by
  have hok := actionMenuScript_completes page hparents
  have h1 := click_menu_once page pg m p hwf hok hmenu hp hshape
  have hshape2 : (click (actionMenuScript page).state pg p).map Element.parent =
      page.map Element.parent := by
    rw [click_parents, hshape]
  have h2 := click_menu_once page _ m p hwf hok hmenu hp hshape2
  refine ⟨h1, ?_, ?_, ?_, ?_, ?_, ?_⟩
  · rw [h1]; exact mem_toggle_self _ _
  · intro c hc
    rw [h1]; exact mem_toggle_other _ _ _ hc
  · rw [h1]; exact toggle_filter_other _ _
  · intro c
    rw [h2, h1]; exact mem_toggle_toggle _ _ _
  · intro hnot
    rw [h2, h1]; exact toggle_toggle_of_not_mem _ _ hnot
  · intro hmem
    rw [h2, h1]; exact toggle_toggle_of_mem _ _ hmem

theorem menuPage_parents :
    ∀ i, str "action-menu" ∈ classListOf menuPage i → parentElement menuPage i ≠ none := by
  intro i hi
  have hlt : i < 6 := classListOf_pos menuPage i _ hi
  interval_cases i <;> first | (exact absurd hi (by decide)) | decide

/-- Witness for C6 as amended, on the sample page: a click on element 2 adds `action-menu--active` to
the menu, element 3, and a second click removes it again. -/
theorem menu_click_toggles_once_witness :
    WellFormed menuPage ∧
    (∀ i, str "action-menu" ∈ classListOf menuPage i → parentElement menuPage i ≠ none) ∧
    str "action-menu" ∈ classListOf menuPage 3 ∧
    parentElement menuPage 3 = some 2 ∧
    classListOf (click (actionMenuScript menuPage).state menuPage 2) 3 =
      toggle (str "action-menu--active") (classListOf menuPage 3) ∧
    classListOf (click (actionMenuScript menuPage).state menuPage 2) 3 =
      [str "action-menu", str "action-menu--active"] ∧
    classListOf (click (actionMenuScript menuPage).state
      (click (actionMenuScript menuPage).state menuPage 2) 2) 3 = [str "action-menu"] :=
  ⟨by decide, menuPage_parents, by decide, by decide,
   (menu_click_toggles_once menuPage menuPage 3 2 (by decide) menuPage_parents (by decide)
      (by decide) rfl).1,
   by decide, by decide⟩

/-- Counterexample to C6 as stated. When the root element carries the class `action-menu`,
the script throws at that element, which has no parent element, and registers no listener:
a click on the parent of the menu below it toggles nothing. And when `action-menu--active`
is not the last token of a menu, two clicks on the parent give back the same classes in
another order, not the class list itself. -/
theorem root_menu_click_toggles_nothing :
    WellFormed rootMenuPage ∧
    actionMenuScript rootMenuPage = ⟨[], some JSError.TypeError⟩ ∧
    str "action-menu" ∈ classListOf rootMenuPage 3 ∧
    parentElement rootMenuPage 3 = some 2 ∧
    classListOf rootMenuPage 3 = [str "action-menu"] ∧
    classListOf (click (actionMenuScript rootMenuPage).state rootMenuPage 2) 3 =
      [str "action-menu"] ∧
    parentElement menuPage 5 = some 4 ∧
    classListOf menuPage 5 = [str "action-menu--active", str "action-menu"] ∧
    classListOf (click (actionMenuScript menuPage).state
      (click (actionMenuScript menuPage).state menuPage 4) 4) 5 =
      [str "action-menu", str "action-menu--active"] := by
  decide

/-- C7, as the code has it. A click leaves the class list of a menu `b` unchanged whenever
the parent of `b` is not on the propagation path of the click, that is, is neither the
clicked element nor one of its ancestors. In particular a click on the parent of a menu `a`
leaves `b` alone when the parent of `b` is neither the parent of `a` nor an ancestor of
it. -/
theorem menu_click_leaves_other_menu (page pg : Page) (target b pb : Nat)
    (hb : parentElement page b = some pb)
    (hoff : pb ∉ eventPath page target)
    (hshape : pg.map Element.parent = page.map Element.parent) :
    classListOf (click (actionMenuScript page).state pg target) b = classListOf pg b :=
  click_other_menu page pg target b pb hb hoff hshape

/-- Witness for C7 as amended: on the sample page a click on element 2, the parent of the
menu 3, leaves the menu 5 (parent 4) unchanged. -/
theorem menu_click_leaves_other_menu_witness :
    parentElement menuPage 5 = some 4 ∧
    4 ∉ eventPath menuPage 2 ∧
    classListOf (click (actionMenuScript menuPage).state menuPage 2) 5 =
      classListOf menuPage 5 :=
  ⟨by decide, by decide,
   menu_click_leaves_other_menu menuPage menuPage 2 5 4 (by decide) (by decide) rfl⟩

/-- Counterexample to C7 as stated: when two menus have the same parent, one click on that
parent, the trigger of the first menu, also toggles the second. -/
theorem shared_parent_click_toggles_both :
    WellFormed sharedPage ∧
    actionMenuScript sharedPage = ⟨[⟨1, 2⟩, ⟨1, 3⟩], none⟩ ∧
    parentElement sharedPage 2 = some 1 ∧
    classListOf sharedPage 3 = [str "action-menu"] ∧
    classListOf (click (actionMenuScript sharedPage).state sharedPage 1) 3 =
      [str "action-menu", str "action-menu--active"] := by
  decide

/-! ## The image preview -/

/-- C8 on the code. When the input has no next sibling element, `label` is `null` and
`label.querySelector` throws a `TypeError`: the handler ends with that error, with no image
source changed. With a label holding an image, the handler sets the source of the image to
a new object URL. -/
theorem formImageChange_without_sibling_raises :
    nextElementSibling lastChildPage 5 = none ∧
    formImageChange 5 ⟨lastChildPage, []⟩ = ⟨⟨lastChildPage, []⟩, some JSError.TypeError⟩ ∧
    (formImageChange 3 ⟨previewPage, []⟩).error = none ∧
    getAttribute (formImageChange 3 ⟨previewPage, []⟩).state.page 5 (str "src") =
      some (str "blob:0") ∧
    (formImageChange 3 ⟨previewPage, []⟩).state.blobs = [7] := by
  decide

end BeEngram
